import Mathlib

/-!
# Verification of the uwyo_downloader fetch–parse–persist pipeline

Shallow embedding of the core of `uwyo_downloader` (a Python application that
downloads atmospheric soundings, parses the tabular text block, persists the
result and computes an integrated water-vapour column).

Modelling conventions:
* Python `float` values are modelled as exact rationals (`ℚ`).  CPython binary64
  arithmetic is modelled as exact rational arithmetic; the result of the one
  transcendental computation (`math.exp` inside the absolute-humidity formula)
  is modelled by a Taylor polynomial and the whole formula result is rounded to
  15 decimal places, so that every produced number is a finite decimal — the
  rational-model analogue of "every binary64 float prints and re-reads
  exactly".  `float(str)` parsing is modelled for the finite decimal /
  scientific forms (`inf`/`nan`/underscore forms are outside the model).
* Python `dict`s keyed by column name are modelled as insertion-ordered
  association lists where inserting an existing key overwrites in place.
* `datetime` instants are modelled as rationals (hours on an arbitrary epoch);
  `timedelta(hours=h)` is addition of the integer `h`.
* Database state is explicit: a list of rows plus an autoincrement counter;
  `datetime.utcnow()` is passed in as an explicit `now` argument.
-/

namespace Uwyo

/-- A cell of the parsed table: Python `float | str | None`. -/
inductive Cell where
  | num (q : ℚ)
  | str (s : String)
  | absent
  deriving DecidableEq, Repr

/-- Insertion-ordered string-keyed dictionary of cells (Python `dict`). -/
abbrev Row := List (String × Cell)

/-- `d.get(k)` on a Python dict: first (unique) binding, if any. -/
def dget (r : Row) (k : String) : Option Cell :=
  (r.find? fun kv => kv.1 == k).map (·.2)

/-- `d[k] = v` on a Python dict: overwrite in place, else append. -/
def dinsert (r : Row) (k : String) (v : Cell) : Row :=
  if r.any fun kv => kv.1 == k then
    r.map fun kv => if kv.1 == k then (k, v) else kv
  else r ++ [(k, v)]

/-! ## Character and string utilities (Python `str` methods) -/

/-- ASCII whitespace as used by `str.split()` / `str.strip()`. -/
def isWs (c : Char) : Bool :=
  c = ' ' || c = '\t' || c = '\n' || c = '\r'

/-- `str.splitlines()`, for text whose only line terminator is `'\n'`
(the form produced by `pre.get_text("\n")` and by the CSV writer). -/
def pySplitlines (s : String) : List String :=
  let parts := (s.toList.splitOn '\n').map fun l => (⟨l⟩ : String)
  match parts.getLast? with
  | some "" => parts.dropLast
  | _ => parts

/-- `str.strip()`. -/
def pyStrip (s : String) : String :=
  ⟨((s.toList.dropWhile fun c => isWs c).reverse.dropWhile fun c => isWs c).reverse⟩

/-- Whitespace splitter on character lists: runs of whitespace separate
maximal non-whitespace tokens, empty pieces are discarded (`str.split()`). -/
def wsSplit : List Char → List (List Char)
  | [] => []
  | c :: rest =>
    if isWs c then wsSplit rest
    else (c :: rest.takeWhile fun x => ¬ isWs x) ::
      wsSplit (rest.dropWhile fun x => ¬ isWs x)
  termination_by l => l.length
  decreasing_by
    · simp
    · exact Nat.lt_succ_of_le (List.dropWhile_suffix _).length_le

/-- `str.split()` (no argument: split on whitespace runs). -/
def pySplitWs (s : String) : List String :=
  (wsSplit s.toList).map fun l => (⟨l⟩ : String)

/-- `str.startswith(pre)`. -/
def pyStartsWith (s pre : String) : Bool :=
  pre.toList.isPrefixOf s.toList

/-! ## Model of CPython `float(str)` and `str(float)` -/

/-- Numeric value of a decimal digit character. -/
def digitVal (c : Char) : ℕ := c.toNat - 48

/-- Value of a big-endian list of decimal digit characters. -/
def charsVal (cs : List Char) : ℕ :=
  Nat.ofDigits 10 ((cs.map digitVal).reverse)

/-- Split a character list into its maximal leading digit run and the rest. -/
def takeDigits : List Char → List Char × List Char
  | [] => ([], [])
  | c :: cs =>
    if c.isDigit then
      let (d, r) := takeDigits cs
      (c :: d, r)
    else ([], c :: cs)

/-- Model of CPython `float(s)` on finite decimal and scientific forms:
optional sign, digits with an optional decimal point (at least one digit
overall), optional exponent part.  Returns `none` where `float` raises
`ValueError`. -/
def pyFloatAux (cs : List Char) : Option ℚ :=
  let sgn : ℚ := if cs.head? = some '-' then -1 else 1
  let cs1 := if cs.head? = some '-' ∨ cs.head? = some '+' then cs.tail else cs
  let (ip, cs2) := takeDigits cs1
  let (fp, cs3) := if cs2.head? = some '.' then takeDigits cs2.tail else ([], cs2)
  if ip.isEmpty && fp.isEmpty then none
  else
    let mant : ℚ := sgn * ((charsVal ip : ℚ) + (charsVal fp : ℚ) / 10 ^ fp.length)
    if cs3 = [] then some mant
    else if cs3.head? = some 'e' ∨ cs3.head? = some 'E' then
      let r := cs3.tail
      let esgn : Bool := r.head? = some '-'
      let r1 := if r.head? = some '-' ∨ r.head? = some '+' then r.tail else r
      let (ed, r2) := takeDigits r1
      if ed.isEmpty || !r2.isEmpty then none
      else some (if esgn then mant / 10 ^ charsVal ed else mant * 10 ^ charsVal ed)
    else none

/-- Model of CPython `float(s)` (wrapper over the character-level parser). -/
def pyFloat? (s : String) : Option ℚ := pyFloatAux s.toList

/-- Little-endian decimal digits of `n`, with explicit fuel so that the
function is structurally recursive (it agrees with `Nat.digits 10` whenever
`n ≤ fuel`). -/
def decDigitsRev : ℕ → ℕ → List ℕ
  | 0, _ => []
  | f + 1, n => if n = 0 then [] else n % 10 :: decDigitsRev f (n / 10)

/-- Big-endian decimal digit characters of a natural number (`"0"` for zero). -/
def natToChars (n : ℕ) : List Char :=
  if n = 0 then ['0']
  else ((decDigitsRev n n).reverse.map fun d => Char.ofNat (48 + d))

/-- Digit characters of `n` left-padded with `'0'` to length `e`. -/
def fracChars (n e : ℕ) : List Char :=
  let ds := (decDigitsRev n n).reverse.map fun d => Char.ofNat (48 + d)
  List.replicate (e - ds.length) '0' ++ ds

/-- Model of Python `str(float)` on the finite decimals the pipeline produces:
positional decimal notation, always with a decimal point (`"5.0"`), possibly
with trailing zeros.  (CPython's shortest-repr algorithm and its switch to
scientific notation at extreme magnitudes are not modelled; the model prints
the same value exactly, which is what the round-trip property consumes.) -/
def printDec (q : ℚ) : String :=
  let e := Nat.log 2 q.den
  let m := q.num.natAbs * 10 ^ e / q.den
  ⟨(if q < 0 then ['-'] else []) ++ natToChars (m / 10 ^ e) ++
    '.' :: (if e = 0 then ['0'] else fracChars (m % 10 ^ e) e)⟩

/-- A rational is a finite decimal: an integer over a power of ten.  Every
binary64 float is such a number. -/
def IsDecQ (q : ℚ) : Prop := ∃ z : ℤ, ∃ k : ℕ, q = (z : ℚ) / 10 ^ k

/-! ## Absolute humidity (`_compute_absh`) -/

/-- Taylor model of `math.exp` (15 terms). -/
def pyexp (x : ℚ) : ℚ :=
  (List.range 15).foldl (fun acc k => acc + x ^ k / (Nat.factorial k : ℚ)) 0

/-- Round to 15 decimal places: the model's analogue of rounding a real
result into binary64, chosen so the output is always a finite decimal. -/
def decRound15 (q : ℚ) : ℚ := (⌊q * 10 ^ 15⌋ : ℚ) / 10 ^ 15

/-- `_compute_absh(relh, temp_c)`: `None` inputs give `None`; the guarded
denominators reproduce the `except`-caught `ZeroDivisionError` cases; otherwise
the saturation-vapour-pressure formula
`6.112 * exp(17.67*T/(T+243.5)) * RH * 2.1674 / (273.15+T)`. -/
def compute_absh (relh temp_c : Option ℚ) : Option ℚ :=
  match relh, temp_c with
  | some rh, some t =>
    if t + 243.5 = 0 ∨ 273.15 + t = 0 then none
    else some (decRound15 (6.112 * pyexp (17.67 * t / (t + 243.5)) * rh * 2.1674 / (273.15 + t)))
  | _, _ => none

/-- `_is_number(text)`: `float(text)` succeeds. -/
def is_number (s : String) : Bool := (pyFloat? s).isSome

/-! ## `_parse_sounding`: scanning the text block -/

/-- One `row[key] = float(value) except ValueError: row[key] = value` cell. -/
def tokenCell (v : String) : Cell :=
  match pyFloat? v with
  | some q => .num q
  | none => .str v

/-- `row = {}; for key, value in zip(columns_raw, parts): row[key] = ...`. -/
def buildRow (cols parts : List String) : Row :=
  (cols.zip parts).foldl (fun r kv => dinsert r kv.1 (tokenCell kv.2)) []

/-- The line-scanning loop of `_parse_sounding`: find the header (first
stripped line starting with `"PRES"`), then collect data rows until the first
blank line after the header; short lines and lines whose first token is not
numeric are skipped. -/
def scanLines : List String → Bool → List String → List Row → List String × List Row
  | [], _, cols, rows => (cols, rows)
  | line :: rest, headerSeen, cols, rows =>
    let stripped := pyStrip line
    if stripped = "" then
      if headerSeen then (cols, rows) else scanLines rest headerSeen cols rows
    else if !headerSeen && pyStartsWith stripped "PRES" then
      scanLines rest true (pySplitWs stripped) rows
    else if headerSeen then
      let parts := pySplitWs stripped
      if parts.length < cols.length then scanLines rest headerSeen cols rows
      else if !is_number (parts.headD "") then scanLines rest headerSeen cols rows
      else scanLines rest headerSeen cols (rows ++ [buildRow cols parts])
    else scanLines rest headerSeen cols rows

/-- `relh if isinstance(relh, (int, float)) else None`. -/
def numOfCell : Option Cell → Option ℚ
  | some (.num q) => some q
  | _ => none

/-- The absolute-humidity augmentation step: if both `RELH` and `TEMP` are
header columns, append an `ABSH` column and set each row's `ABSH` to the
computed value (`None` encoded as `.absent`). -/
def addAbsh (cols : List String) (rows : List Row) : List String × List Row :=
  if cols.contains "RELH" && cols.contains "TEMP" then
    (cols ++ ["ABSH"], rows.map fun row =>
      dinsert row "ABSH"
        (match compute_absh (numOfCell (dget row "RELH")) (numOfCell (dget row "TEMP")) with
         | some q => .num q
         | none => .absent))
  else (cols, rows)

/-- The `_COLUMN_UNITS` table. -/
def columnUnits : String → Option String
  | "PRES" => some "hPa"
  | "HGHT" => some "m"
  | "TEMP" => some "C"
  | "DWPT" => some "C"
  | "RELH" => some "%"
  | "MIXR" => some "g/kg"
  | "DRCT" => some "deg"
  | "SKNT" => some "knot"
  | "THTA" => some "K"
  | "THTE" => some "K"
  | "THTV" => some "K"
  | "ABSH" => some "g/m3"
  | _ => none

/-- `label_map[base]`: attach the unit suffix where one is known. -/
def labelOf (base : String) : String :=
  match columnUnits base with
  | some u => base ++ "," ++ u
  | none => base

/-- `labeled_row[label_map[base]] = row.get(base)` over the final columns. -/
def relabelRow (cols : List String) (row : Row) : Row :=
  cols.foldl (fun r base => dinsert r (labelOf base) ((dget row base).getD .absent)) []

/-! ## CSV serialization (`_rows_to_csv`) and re-parsing (`parse_csv_payload`) -/

/-- Python `csv.writer` field encoding with the default QUOTE_MINIMAL policy:
quote (doubling inner quote characters) exactly when the field contains the
delimiter, the quote character or a line terminator. -/
def csvQuoteField (s : String) : String :=
  if s.toList.any fun c => c = ';' || c = '"' || c = '\n' || c = '\r' then
    ⟨'"' :: (s.toList.foldr (fun c acc => (if c = '"' then ['"', '"'] else [c]) ++ acc) ['"'])⟩
  else s

/-- Field text written for a cell: `str(float)` for numbers, the string
itself, and `""` for `None` (the writer's `... is not None else ""`). -/
def cellToField : Cell → String
  | .num q => printDec q
  | .str s => s
  | .absent => ""

/-- Join CSV fields with the `";"` delimiter (one record line). -/
def joinSemi : List String → String
  | [] => ""
  | [f] => f
  | f :: rest => f ++ ";" ++ joinSemi rest

/-- Concatenate record lines, each terminated by `"\n"` (the writer's
`lineterminator`). -/
def joinLines : List String → String
  | [] => ""
  | l :: ls => l ++ "\n" ++ joinLines ls

/-- `_rows_to_csv(columns, rows)`: header line then one line per row, fields
joined with `";"`, each line terminated by `"\n"`. -/
def rows_to_csv (columns : List String) (rows : List Row) : String :=
  let header := joinSemi (columns.map csvQuoteField)
  let body := rows.map fun row =>
    joinSemi (columns.map fun col =>
      csvQuoteField (cellToField ((dget row col).getD (.str ""))))
  joinLines (header :: body)

/-- Python `csv.reader` on one line: split fields on `';'` outside quotes,
`'""'` inside a quoted field is an escaped quote; a blank line gives no
fields. -/
def csvReadLineGo : List Char → Bool → List Char → List String → List String
  | [], _, cur, acc => acc ++ [⟨cur⟩]
  | '"' :: '"' :: cs, true, cur, acc => csvReadLineGo cs true (cur ++ ['"']) acc
  | '"' :: cs, true, cur, acc => csvReadLineGo cs false cur acc
  | c :: cs, true, cur, acc => csvReadLineGo cs true (cur ++ [c]) acc
  | c :: cs, false, cur, acc =>
    if c = ';' then csvReadLineGo cs false [] (acc ++ [⟨cur⟩])
    else if c = '"' then csvReadLineGo cs true cur acc
    else csvReadLineGo cs false (cur ++ [c]) acc

/-- One CSV record from one line. -/
def csvReadLine (s : String) : List String :=
  if s = "" then [] else csvReadLineGo s.toList false [] []

/-- Cell produced by `parse_csv_payload` for one field: empty fields stay the
empty string, numeric fields become floats, the rest stay strings. -/
def fieldCell (v : String) : Cell :=
  if v = "" then .str ""
  else match pyFloat? v with
    | some q => .num q
    | none => .str v

/-- `parse_csv_payload(text)` (the `"raw"` echo of the input is dropped):
first record is the column list, every further record is zipped with the
columns into a row dict. -/
def parse_csv_payload (text : String) : List String × List Row :=
  match (pySplitlines text).map csvReadLine with
  | [] => ([], [])
  | columns :: rest =>
    (columns, rest.map fun row =>
      (columns.zip row).foldl (fun r kv => dinsert r kv.1 (fieldCell kv.2)) [])

/-- Result shape of `_parse_sounding`: the labeled payload and its CSV text. -/
structure Parsed where
  columns : List String
  rows : List Row
  csv : String
  deriving DecidableEq, Repr

/-- `_parse_sounding(text_block)`: scan, augment with `ABSH`, label with
units, serialize. -/
def parse_sounding (text : String) : Parsed :=
  let (columnsRaw, rowsRaw) := scanLines (pySplitlines text) false [] []
  let (cols2, rows2) := addAbsh columnsRaw rowsRaw
  let columnsLabeled := cols2.map labelOf
  let rowsLabeled := rows2.map (relabelRow cols2)
  ⟨columnsLabeled, rowsLabeled, rows_to_csv columnsLabeled rowsLabeled⟩

/-! ## The PWV integrator (`MainWindow._compute_pwv_for_record`) -/

/-- `str(col).split(",", 1)[0].strip()`: the column's base name. -/
def colBase (col : String) : String :=
  pyStrip ⟨col.toList.takeWhile fun c => c ≠ ','⟩

/-- `col_map.get(base)` where `col_map = {base(col): col for col in columns}`
(a later column with the same base overwrites an earlier one). -/
def colMapGet (columns : List String) (base : String) : Option String :=
  columns.reverse.find? fun col => colBase col == base

/-- `float(row.get(col))`: floats pass through, strings go through `float`,
a missing key or `None` raises `TypeError` (modelled as `none`). -/
def cellFloat? : Option Cell → Option ℚ
  | some (.num q) => some q
  | some (.str s) => pyFloat? s
  | _ => none

/-- The sample-collection loop: keep `(height, absh)` pairs where both parse
and the height is not below the threshold. -/
def pwv_samples (hcol acol : String) (rows : List Row) (minH : ℚ) : List (ℚ × ℚ) :=
  rows.filterMap fun row =>
    match cellFloat? (dget row hcol), cellFloat? (dget row acol) with
    | some h, some a => if h < minH then none else some (h, a)
    | _, _ => none

/-- `np.trapezoid(y, x)` over a list of `(x, y)` pairs. -/
def trapz : List (ℚ × ℚ) → ℚ
  | a :: b :: rest => (b.1 - a.1) * (a.2 + b.2) / 2 + trapz (b :: rest)
  | _ => 0

/-- Comparison used by `samples.sort(key=lambda x: x[0])`. -/
def sampleLE (a b : ℚ × ℚ) : Prop := a.1 ≤ b.1

instance : DecidableRel sampleLE := fun a b => inferInstanceAs (Decidable (a.1 ≤ b.1))

/-- `MainWindow._compute_pwv_for_record` after `record.parsed_payload()`:
locate the height and absolute-humidity columns, collect parseable samples at
or above the threshold, require at least two, sort by height (Python's sort
is stable; `insertionSort` is stable as well) and integrate, dividing by 1000. -/
def compute_pwv_for_record (columns : List String) (rows : List Row) (minH : ℚ) : Option ℚ :=
  if columns = [] ∨ rows = [] then none
  else
    match colMapGet columns "HGHT", colMapGet columns "ABSH" with
    | some hcol, some acol =>
      let samples := pwv_samples hcol acol rows minH
      if samples.length < 2 then none
      else some (trapz (samples.insertionSort sampleLE) / 1000)
    | _, _ => none

/-! ## `build_datetimes` (utils.py) -/

/-- The `while current <= end: append; current += timedelta(hours=step)` loop.
Instants are rationals (hours on an arbitrary epoch). -/
def build_datetimes_go (current end_ : ℚ) (step : ℤ) (hstep : 0 < step) : List ℚ :=
  if _h : current ≤ end_ then
    current :: build_datetimes_go (current + step) end_ step hstep
  else []
  termination_by (⌊end_ - current⌋ + 1).toNat
  decreasing_by
    have h0 : (0 : ℤ) ≤ ⌊end_ - current⌋ := Int.floor_nonneg.2 (by linarith)
    have h1 : ⌊end_ - (current + step)⌋ = ⌊end_ - current⌋ - step := by
      rw [show end_ - (current + (step : ℚ)) = end_ - current - (step : ℚ) by ring,
        Int.floor_sub_int]
    omega

/-- `build_datetimes(start, end, step_hours)`: guard the step and the order,
then produce the arithmetic progression of instants not after `end`. -/
def build_datetimes (start end_ : ℚ) (step_hours : ℤ) : Except String (List ℚ) :=
  if _h : step_hours ≤ 0 then .error "Шаг должен быть больше 0 часов"
  else if start > end_ then .error "Начальная дата позже конечной"
  else .ok (build_datetimes_go start end_ step_hours (by omega))

/-! ## The store (`SoundingRepository.upsert_sounding`, `ensure_station`) -/

/-- One row of the `soundings` table. -/
structure SRow where
  id : ℕ
  station_id : String
  station_name : Option String
  captured_at : ℚ
  downloaded_at : ℚ
  payload_json : String
  deriving DecidableEq, Repr

/-- The `soundings` table with its autoincrement counter. -/
structure SoundingDB where
  rows : List SRow
  nextId : ℕ
  deriving DecidableEq, Repr

/-- The unique key `(station_id, captured_at)` of `uq_sounding_station_time`. -/
def sKey (sid : String) (cat : ℚ) (r : SRow) : Bool :=
  r.station_id == sid && r.captured_at == cat

/-- `SoundingRepository.upsert_sounding`: `INSERT ... ON CONFLICT (station_id,
captured_at) DO UPDATE SET payload_json, station_name, downloaded_at = now`.
On a plain insert the statement's primary key is the fresh autoincrement id;
on a conflicting update the code falls back to selecting the existing row's id
for the unique pair.  `datetime.utcnow()` is the explicit `now`. -/
def upsert_sounding (db : SoundingDB) (sid : String) (sname : Option String)
    (cat : ℚ) (payload : String) (now : ℚ) : SoundingDB × ℕ :=
  match db.rows.find? (sKey sid cat) with
  | some r =>
    let updated := db.rows.map fun r' =>
      if sKey sid cat r' then
        { r' with payload_json := payload, station_name := sname, downloaded_at := now }
      else r'
    ({ rows := updated, nextId := db.nextId }, r.id)
  | none =>
    ({ rows := db.rows ++ [⟨db.nextId, sid, sname, cat, now, payload⟩],
       nextId := db.nextId + 1 }, db.nextId)

/-- The `stations` table (the columns the worker touches). -/
structure StationRow where
  id : String
  name : String
  updated_at : ℚ
  deriving DecidableEq, Repr

/-- `StationRepository.ensure_station`: return if present, otherwise insert a
placeholder whose name defaults to the id. -/
def ensure_station (stations : List StationRow) (sid : String) (name : Option String)
    (now : ℚ) : List StationRow :=
  if stations.any fun s => s.id == sid then stations
  else stations ++ [⟨sid, name.getD sid, now⟩]

/-! ## `DownloadWorker._retry_on_lock` -/

/-- Outcome of one invocation of the wrapped `func()`. -/
inductive Attempt (α : Type) where
  | ok (a : α)
  | opErr (msg : String)
  | otherErr (msg : String)
  deriving DecidableEq, Repr

/-- ASCII `str.lower()` on one character (the error messages in scope are
ASCII). -/
def charLower (c : Char) : Char :=
  if 65 ≤ c.toNat && c.toNat ≤ 90 then Char.ofNat (c.toNat + 32) else c

/-- `str.lower()`. -/
def pyLower (s : String) : String := ⟨s.toList.map charLower⟩

/-- `"database is locked" in str(exc).lower() or "busy" in str(exc).lower()`:
the lock/busy class of `OperationalError`. -/
def lockMsgB (msg : String) : Bool :=
  let m := pyLower msg
  decide ("database is locked".toList <:+: m.toList) ||
    decide ("busy".toList <:+: m.toList)

/-- Result of the retry wrapper: a value, a propagated exception (tagged with
whether it was an `OperationalError`), or Python's implicit `None` when
`retries == 0`. -/
inductive RetryResult (α : Type) where
  | ok (a : α)
  | raised (isOp : Bool) (msg : String)
  | fellThrough
  deriving DecidableEq, Repr

/-- The `for attempt in range(retries)` loop of `_retry_on_lock`: the wrapped
operation is a sequence of attempt outcomes.  Returns the result, the number
of invocations made, and the list of sleeps performed (`delay * (attempt+1)`
after each lock failure). -/
def retryGo (f : ℕ → Attempt α) (delay : ℚ) :
    ℕ → ℕ → Option String → List ℚ → RetryResult α × ℕ × List ℚ
  | 0, attempt, lastExc, sleeps =>
    (match lastExc with
     | some m => .raised true m
     | none => .fellThrough, attempt, sleeps)
  | n + 1, attempt, _lastExc, sleeps =>
    match f attempt with
    | .ok a => (.ok a, attempt + 1, sleeps)
    | .opErr m =>
      if !lockMsgB m then (.raised true m, attempt + 1, sleeps)
      else retryGo f delay n (attempt + 1) (some m) (sleeps ++ [delay * (attempt + 1)])
    | .otherErr m => (.raised false m, attempt + 1, sleeps)

/-- `DownloadWorker._retry_on_lock(func, retries, delay)`. -/
def retry_on_lock (f : ℕ → Attempt α) (retries : ℕ) (delay : ℚ) :
    RetryResult α × ℕ × List ℚ :=
  retryGo f delay retries 0 none []

/-! ## `fetch_sounding` (services/soundings.py) -/

/-- The parts of the HTTP response that `fetch_sounding` inspects: status
code, the text of the first `<h3>` heading (if any) and the text of the first
`<pre>` block (if any). -/
structure HttpResponse where
  status : ℕ
  h3 : Option String
  pre : Option String
  deriving DecidableEq, Repr

/-- Result object (`SoundingFetchResult`, the on-disk path omitted: file I/O
is outside the model).  `payload` stands for the JSON-serialized payload
dict. -/
structure FetchResult where
  content : String
  station_name : String
  payload : Parsed
  deriving DecidableEq, Repr

/-- `fetch_sounding`: 404 ↦ `None`; any other status except 200 ↦
`RuntimeError(f"HTTP {status}")`; on 200, extract the station name from the
first heading (falling back to the station id) and the `<pre>` block,
failing when it is missing, then parse. -/
def fetch_sounding (resp : HttpResponse) (station_id : String) :
    Except String (Option FetchResult) :=
  if resp.status = 404 then .ok none
  else if resp.status ≠ 200 then .error ("HTTP " ++ toString resp.status)
  else
    let station_name := match resp.h3 with
      | some t => t
      | none => station_id
    match resp.pre with
    | none => .error "Нет блока <pre> с данными"
    | some text_block =>
      let p := parse_sounding text_block
      .ok (some ⟨p.csv, station_name, p⟩)

/-! ## `DownloadWorker._run` (ui/workers.py)

The `asyncio` machinery is abstracted: the bounded tasks settle in some
completion order, and `as_completed` hands the orchestrator one settled item
at a time, which it processes sequentially.  A run is therefore modelled by
the list of settled items in completion order.  The cooperative-cancellation
path is not exercised (no cancellation is requested in the claims below), and
the per-item `except repo_exc` branch around the database write cannot fire in
the total store model. -/

/-- How one `bounded_fetch` task settled: a fetch result, a 404 (`None`), or
an exception.  The exception carries its Python class: a transport-level
`httpx` error (connection refused, DNS failure, connect timeout) or any other
per-item error (parse failure, HTTP status error, bad body).  `bounded_fetch`
catches every `Exception` uniformly and returns it as the item's error. -/
inductive PyErrClass where
  | transport
  | perItem
  deriving DecidableEq, Repr

/-- Settled outcome of one `bounded_fetch` task. -/
inductive FetchOut where
  | success (station_name : String) (payload_json : String)
  | notFound
  | exn (cls : PyErrClass) (msg : String)
  deriving DecidableEq, Repr

/-- Render an instant into the log messages (`f"{dt:%Y-%m-%d %H:%M}"`). -/
def dtStr (dt : ℚ) : String := reprStr dt

/-- Orchestrator state while the `as_completed` loop runs. -/
structure WorkerState where
  db : SoundingDB
  stations : List StationRow
  done : ℕ
  errors : List String
  logs : List String
  progress : List (ℕ × ℕ)
  deriving DecidableEq, Repr

/-- Static inputs of `DownloadWorker._run`. -/
structure RunCfg where
  station_id : String
  stationName : String
  deriving DecidableEq, Repr

/-- The body of the `as_completed` loop for one settled item: bump `done`,
persist a success (ensure the station, upsert the sounding), record an
exception — of either class — as that item's error, log a 404, then report
`(done, total)` progress. -/
def processItem (cfg : RunCfg) (now : ℚ) (total : ℕ) (st : WorkerState)
    (item : ℚ × FetchOut) : WorkerState :=
  let dt := item.1
  let st1 := { st with done := st.done + 1 }
  let st2 := match item.2 with
    | .success nm payload =>
      let station_name := if nm = "" then cfg.stationName else nm
      let stations := ensure_station st1.stations cfg.station_id (some station_name) now
      let (db, _) := upsert_sounding st1.db cfg.station_id (some station_name) dt payload now
      let newLogs := st1.logs ++ [dtStr dt ++ " сохранено (в БД)"]
      { st1 with stations := stations, db := db, logs := newLogs }
    | .exn _ m =>
      let msg := dtStr dt ++ " ошибка: " ++ m
      { st1 with errors := st1.errors ++ [msg], logs := st1.logs ++ [msg] }
    | .notFound =>
      { st1 with logs := st1.logs ++ [dtStr dt ++ " данных нет (404)"] }
  { st2 with progress := st2.progress ++ [(st2.done, total)] }

/-- `DownloadWorker._run` over the settled items in completion order:
empty date list short-circuits; otherwise every settled item is processed and
the run finishes `(False, last errors)` when any item failed, else
`(True, "Готово")`. -/
def run_worker (cfg : RunCfg) (now : ℚ) (db0 : SoundingDB) (stations0 : List StationRow)
    (items : List (ℚ × FetchOut)) : WorkerState × (Bool × String) :=
  let init : WorkerState := ⟨db0, stations0, 0, [], [], []⟩
  if items = [] then (init, (false, "Нет дат для загрузки"))
  else
    let final := items.foldl (processItem cfg now items.length) init
    (final,
      if final.errors = [] then (true, "Готово")
      else (false, String.intercalate "; "
        (final.errors.drop (final.errors.length - 3))))

/-! # Verified properties

## C10: `build_datetimes` -/

lemma build_go_pos {current end_ : ℚ} {step : ℤ} (h : 0 < step) (hc : current ≤ end_) :
    build_datetimes_go current end_ step h =
      current :: build_datetimes_go (current + step) end_ step h := by
  rw [build_datetimes_go]
  simp [hc]

lemma build_go_neg {current end_ : ℚ} {step : ℤ} (h : 0 < step) (hc : ¬ current ≤ end_) :
    build_datetimes_go current end_ step h = [] := by
  rw [build_datetimes_go]
  simp [hc]

lemma build_go_mem (current end_ : ℚ) (step : ℤ) (h : 0 < step) (x : ℚ) :
    x ∈ build_datetimes_go current end_ step h ↔
      (∃ i : ℕ, x = current + (i : ℚ) * (step : ℚ)) ∧ x ≤ end_ := by
  induction current, end_, step, h using build_datetimes_go.induct with
  | case1 current end_ step hstep hc ih =>
    rw [build_go_pos hstep hc]
    simp only [List.mem_cons, ih]
    constructor
    · rintro (rfl | ⟨⟨i, rfl⟩, hle⟩)
      · exact ⟨⟨0, by push_cast; ring⟩, hc⟩
      · exact ⟨⟨i + 1, by push_cast; ring⟩, hle⟩
    · rintro ⟨⟨i, rfl⟩, hle⟩
      match i with
      | 0 => left; push_cast; ring
      | j + 1 =>
        right
        exact ⟨⟨j, by push_cast; ring⟩, hle⟩
  | case2 current end_ step hstep hc =>
    rw [build_go_neg hstep hc]
    simp only [List.not_mem_nil, false_iff]
    rintro ⟨⟨i, rfl⟩, hle⟩
    have hi : (0 : ℚ) ≤ (i : ℚ) * (step : ℚ) := by
      have : (0 : ℚ) ≤ (i : ℚ) := Nat.cast_nonneg i
      have : (0 : ℚ) < (step : ℚ) := by exact_mod_cast hstep
      positivity
    exact hc (by linarith)

lemma build_go_head (current end_ : ℚ) (step : ℤ) (h : 0 < step) :
    (build_datetimes_go current end_ step h).head? =
      if current ≤ end_ then some current else none := by
  by_cases hc : current ≤ end_
  · rw [build_go_pos h hc]; simp [hc]
  · rw [build_go_neg h hc]; simp [hc]

lemma build_go_chain (current end_ : ℚ) (step : ℤ) (h : 0 < step) :
    (build_datetimes_go current end_ step h).Chain' (· < ·) := by
  induction current, end_, step, h using build_datetimes_go.induct with
  | case1 current end_ step hstep hc ih =>
    rw [build_go_pos hstep hc]
    rw [List.chain'_cons']
    refine ⟨?_, ih⟩
    intro y hy
    rw [build_go_head] at hy
    have hs : (0 : ℚ) < (step : ℚ) := by exact_mod_cast hstep
    rcases Classical.em (current + (step : ℚ) ≤ end_) with hle | hle
    · rw [if_pos hle] at hy
      cases hy
      linarith
    · rw [if_neg hle] at hy
      cases hy
  | case2 current end_ step hstep hc =>
    rw [build_go_neg hstep hc]
    exact List.chain'_nil

/-- C10: `build_datetimes` raises a `ValueError` when the step is nonpositive
or the range is inverted, and otherwise returns the nonempty strictly
increasing arithmetic progression `start, start + step, …` of exactly the
terms that are `≤ end`, starting at `start`. -/
theorem build_datetimes_spec (start end_ : ℚ) (step_hours : ℤ) :
    (step_hours ≤ 0 →
      build_datetimes start end_ step_hours = .error "Шаг должен быть больше 0 часов") ∧
    (0 < step_hours → end_ < start →
      build_datetimes start end_ step_hours = .error "Начальная дата позже конечной") ∧
    (0 < step_hours → start ≤ end_ →
      ∃ l : List ℚ, build_datetimes start end_ step_hours = .ok l ∧
        l ≠ [] ∧ l.head? = some start ∧ l.Chain' (· < ·) ∧
        ∀ x : ℚ, x ∈ l ↔
          (∃ i : ℕ, x = start + (i : ℚ) * (step_hours : ℚ)) ∧ x ≤ end_) := by
  refine ⟨fun hle => ?_, fun hpos hlt => ?_, fun hpos hle => ?_⟩
  · rw [build_datetimes, dif_pos hle]
  · rw [build_datetimes, dif_neg (by omega), if_pos hlt]
  · rw [build_datetimes, dif_neg (by omega), if_neg (by exact not_lt.2 hle)]
    refine ⟨_, rfl, ?_, ?_, build_go_chain _ _ _ _, build_go_mem _ _ _ _⟩
    · intro hnil
      have := build_go_head start end_ step_hours (by omega)
      rw [hnil, if_pos hle] at this
      cases this
    · rw [build_go_head, if_pos hle]

/-- Witness for C10 at `start = 0`, `end = 2`, `step_hours = 1`. -/
theorem build_datetimes_spec_witness :
    (0 : ℤ) < 1 ∧ (0 : ℚ) ≤ 2 ∧
      ∃ l : List ℚ, build_datetimes 0 2 1 = .ok l ∧
        l ≠ [] ∧ l.head? = some 0 ∧ l.Chain' (· < ·) ∧
        ∀ x : ℚ, x ∈ l ↔ (∃ i : ℕ, x = 0 + (i : ℚ) * ((1 : ℤ) : ℚ)) ∧ x ≤ 2 :=
  ⟨by norm_num, by norm_num,
    (build_datetimes_spec 0 2 1).2.2 (by norm_num) (by norm_num)⟩

/-! ## C1: `upsert_sounding` idempotency on the unique key -/

/-- The `uq_sounding_station_time` unique constraint as a table invariant. -/
def UniqDB (db : SoundingDB) : Prop :=
  db.rows.Pairwise fun a b => ¬ (a.station_id = b.station_id ∧ a.captured_at = b.captured_at)

lemma sKey_iff {sid : String} {cat : ℚ} {r : SRow} :
    sKey sid cat r = true ↔ r.station_id = sid ∧ r.captured_at = cat := by
  simp [sKey]

lemma filter_sKey_of_find?_none {rows : List SRow} {sid : String} {cat : ℚ}
    (h : rows.find? (sKey sid cat) = none) : rows.filter (sKey sid cat) = [] := by
  rw [List.find?_eq_none] at h
  simp only [List.filter_eq_nil_iff]
  exact fun a ha => by simpa using h a ha

lemma filter_sKey_of_find?_some {rows : List SRow} {sid : String} {cat : ℚ} {r : SRow}
    (hu : rows.Pairwise fun a b => ¬ (a.station_id = b.station_id ∧ a.captured_at = b.captured_at))
    (h : rows.find? (sKey sid cat) = some r) : rows.filter (sKey sid cat) = [r] := by
  induction rows with
  | nil => cases h
  | cons a l ih =>
    rw [List.find?_cons] at h
    rw [List.pairwise_cons] at hu
    by_cases ha : sKey sid cat a
    · rw [ha] at h
      simp only [Option.some.injEq] at h
      subst h
      rw [List.filter_cons_of_pos ha]
      have hnil : l.filter (sKey sid cat) = [] := by
        simp only [List.filter_eq_nil_iff]
        intro b hb hkb
        rw [sKey_iff] at ha hkb
        exact hu.1 b hb ⟨ha.1.trans hkb.1.symm, ha.2.trans hkb.2.symm⟩
      rw [hnil]
    · rw [Bool.not_eq_true] at ha
      rw [ha] at h
      rw [List.filter_cons_of_neg (by simp [ha])]
      exact ih hu.2 h

lemma find?_map_of_pres {α : Type} {l : List α} {p : α → Bool} {f : α → α}
    (hf : ∀ x, p (f x) = p x) : (l.map f).find? p = (l.find? p).map f := by
  induction l with
  | nil => rfl
  | cons a l ih =>
    rw [List.map_cons, List.find?_cons, List.find?_cons, hf a]
    by_cases ha : p a
    · simp [ha]
    · rw [Bool.not_eq_true] at ha
      simp [ha, ih]

lemma filter_map_of_pres {α : Type} {l : List α} {p : α → Bool} {f : α → α}
    (hf : ∀ x, p (f x) = p x) : (l.map f).filter p = (l.filter p).map f := by
  induction l with
  | nil => rfl
  | cons a l ih =>
    rw [List.map_cons, List.filter_cons, List.filter_cons, hf a]
    by_cases ha : p a
    · simp only [ha, if_true, List.map_cons, ih]
    · rw [Bool.not_eq_true] at ha
      simp [ha, ih]

/-- The row rewrite performed by the `ON CONFLICT DO UPDATE` branch. -/
def updRow (sid : String) (cat : ℚ) (sname : Option String) (payload : String)
    (now : ℚ) (r' : SRow) : SRow :=
  if sKey sid cat r' then
    { r' with payload_json := payload, station_name := sname, downloaded_at := now }
  else r'

lemma updRow_pres (sid : String) (cat : ℚ) (sname : Option String) (payload : String)
    (now : ℚ) (r' : SRow) :
    sKey sid cat (updRow sid cat sname payload now r') = sKey sid cat r' := by
  unfold updRow
  by_cases hr : sKey sid cat r'
  · rw [if_pos hr, hr]
    rw [sKey_iff] at hr ⊢
    exact hr
  · rw [if_neg hr]

lemma upsert_eq_insert {db : SoundingDB} {sid : String} {sname : Option String}
    {cat : ℚ} {payload : String} {now : ℚ}
    (h : db.rows.find? (sKey sid cat) = none) :
    upsert_sounding db sid sname cat payload now =
      ({ rows := db.rows ++ [⟨db.nextId, sid, sname, cat, now, payload⟩],
         nextId := db.nextId + 1 }, db.nextId) := by
  unfold upsert_sounding
  rw [h]

lemma upsert_eq_update {db : SoundingDB} {sid : String} {sname : Option String}
    {cat : ℚ} {payload : String} {now : ℚ} {r : SRow}
    (h : db.rows.find? (sKey sid cat) = some r) :
    upsert_sounding db sid sname cat payload now =
      ({ rows := db.rows.map (updRow sid cat sname payload now),
         nextId := db.nextId }, r.id) := by
  unfold upsert_sounding updRow
  rw [h]

/-- C1: upserting the same `(station_id, captured_at)` key twice, with two
different payloads, leaves exactly one row for that key; that row carries the
second payload, the second station name and the second (refreshed)
`downloaded_at`; the second call returns that row's identifier, which is the
same identifier the first call returned. -/
theorem upsert_sounding_twice (db : SoundingDB) (sid : String) (n1 n2 : Option String)
    (cat : ℚ) (p1 p2 : String) (t1 t2 : ℚ) (hu : UniqDB db) (_hp : p1 ≠ p2) :
    ∃ row : SRow,
      ((upsert_sounding (upsert_sounding db sid n1 cat p1 t1).1 sid n2 cat p2 t2).1.rows.filter
        (sKey sid cat)) = [row] ∧
      row.payload_json = p2 ∧ row.station_name = n2 ∧ row.downloaded_at = t2 ∧
      row.id = (upsert_sounding (upsert_sounding db sid n1 cat p1 t1).1 sid n2 cat p2 t2).2 ∧
      (upsert_sounding (upsert_sounding db sid n1 cat p1 t1).1 sid n2 cat p2 t2).2 =
        (upsert_sounding db sid n1 cat p1 t1).2 := by
  cases hfind : db.rows.find? (sKey sid cat) with
  | none =>
    rw [upsert_eq_insert hfind]
    set newRow : SRow := ⟨db.nextId, sid, n1, cat, t1, p1⟩ with hnewRow
    have hkey : sKey sid cat newRow = true := by rw [sKey_iff]; exact ⟨rfl, rfl⟩
    have hfind1 : (db.rows ++ [newRow]).find? (sKey sid cat) = some newRow := by
      have hsingle : List.find? (sKey sid cat) [newRow] = some newRow :=
        List.find?_cons_of_pos _ hkey
      rw [List.find?_append, hfind, hsingle]
      rfl
    rw [@upsert_eq_update ⟨db.rows ++ [newRow], db.nextId + 1⟩ _ _ _ _ _ _ hfind1]
    refine ⟨updRow sid cat n2 p2 t2 newRow, ?_, ?_, ?_, ?_, ?_, rfl⟩
    · show ((db.rows ++ [newRow]).map (updRow sid cat n2 p2 t2)).filter (sKey sid cat) = _
      rw [filter_map_of_pres (updRow_pres sid cat n2 p2 t2), List.filter_append,
        filter_sKey_of_find?_none hfind, List.filter_cons_of_pos hkey]
      rfl
    · show (updRow sid cat n2 p2 t2 newRow).payload_json = p2
      rw [updRow, if_pos hkey]
    · show (updRow sid cat n2 p2 t2 newRow).station_name = n2
      rw [updRow, if_pos hkey]
    · show (updRow sid cat n2 p2 t2 newRow).downloaded_at = t2
      rw [updRow, if_pos hkey]
    · show (updRow sid cat n2 p2 t2 newRow).id = newRow.id
      rw [updRow, if_pos hkey]
  | some r =>
    rw [upsert_eq_update hfind]
    have hkeyr : sKey sid cat r = true := by
      have := List.find?_some hfind
      exact this
    have hfind1 : ((db.rows.map (updRow sid cat n1 p1 t1)).find? (sKey sid cat)) =
        some (updRow sid cat n1 p1 t1 r) := by
      rw [find?_map_of_pres (updRow_pres sid cat n1 p1 t1), hfind]
      rfl
    rw [@upsert_eq_update ⟨db.rows.map (updRow sid cat n1 p1 t1), db.nextId⟩ _ _ _ _ _ _ hfind1]
    have hkeyr1 : sKey sid cat (updRow sid cat n1 p1 t1 r) = true := by
      rw [updRow_pres]; exact hkeyr
    refine ⟨updRow sid cat n2 p2 t2 (updRow sid cat n1 p1 t1 r), ?_, ?_, ?_, ?_, ?_, ?_⟩
    · show ((db.rows.map (updRow sid cat n1 p1 t1)).map (updRow sid cat n2 p2 t2)).filter
        (sKey sid cat) = _
      rw [filter_map_of_pres (updRow_pres sid cat n2 p2 t2),
        filter_map_of_pres (updRow_pres sid cat n1 p1 t1),
        filter_sKey_of_find?_some hu hfind]
      rfl
    · show (updRow sid cat n2 p2 t2 _).payload_json = p2
      rw [updRow, if_pos hkeyr1]
    · show (updRow sid cat n2 p2 t2 _).station_name = n2
      rw [updRow, if_pos hkeyr1]
    · show (updRow sid cat n2 p2 t2 _).downloaded_at = t2
      rw [updRow, if_pos hkeyr1]
    · show (updRow sid cat n2 p2 t2 _).id = (updRow sid cat n1 p1 t1 r).id
      rw [updRow, if_pos hkeyr1]
    · show (updRow sid cat n1 p1 t1 r).id = r.id
      rw [updRow, if_pos hkeyr]

/-- Witness for C1: two upserts on an initially empty table. -/
theorem upsert_sounding_twice_witness :
    UniqDB ⟨[], 0⟩ ∧ "p1" ≠ "p2" ∧
      ∃ row : SRow,
        ((upsert_sounding (upsert_sounding ⟨[], 0⟩ "S" (some "a") 5 "p1" 1).1
            "S" (some "b") 5 "p2" 2).1.rows.filter (sKey "S" 5)) = [row] ∧
        row.payload_json = "p2" ∧ row.station_name = some "b" ∧ row.downloaded_at = 2 ∧
        row.id = (upsert_sounding (upsert_sounding ⟨[], 0⟩ "S" (some "a") 5 "p1" 1).1
            "S" (some "b") 5 "p2" 2).2 ∧
        (upsert_sounding (upsert_sounding ⟨[], 0⟩ "S" (some "a") 5 "p1" 1).1
            "S" (some "b") 5 "p2" 2).2 =
          (upsert_sounding ⟨[], 0⟩ "S" (some "a") 5 "p1" 1).2 :=
  ⟨List.Pairwise.nil, by decide,
    upsert_sounding_twice ⟨[], 0⟩ "S" (some "a") (some "b") 5 "p1" "p2" 1 2
      List.Pairwise.nil (by decide)⟩

/-! ## C8: `_retry_on_lock` retry policy -/

/-- An attempt outcome of the lock/busy failure class: an `OperationalError`
whose lowered message mentions the lock or busy condition. -/
def IsLockAttempt {α : Type} (a : Attempt α) : Prop :=
  ∃ m, a = .opErr m ∧ lockMsgB m = true

lemma retryGo_lock_step {α : Type} (f : ℕ → Attempt α) (delay : ℚ)
    (n attempt : ℕ) (lastExc : Option String) (sleeps : List ℚ) {m : String}
    (hf : f attempt = .opErr m) (hl : lockMsgB m = true) :
    retryGo f delay (n + 1) attempt lastExc sleeps =
      retryGo f delay n (attempt + 1) (some m) (sleeps ++ [delay * ((attempt + 1 : ℕ) : ℚ)]) := by
  rw [retryGo, hf]
  simp [hl]

lemma retryGo_locks_prefix {α : Type} (f : ℕ → Attempt α) (delay : ℚ) :
    ∀ (k n attempt : ℕ) (lastExc : Option String) (sleeps : List ℚ),
      (∀ j, j < k → IsLockAttempt (f (attempt + j))) →
      ∃ lastExc' : Option String,
        retryGo f delay (k + n) attempt lastExc sleeps =
          retryGo f delay n (attempt + k) lastExc'
            (sleeps ++ (List.range k).map fun j => delay * ((attempt + j + 1 : ℕ) : ℚ)) ∧
        (k = 0 → lastExc' = lastExc) ∧
        (0 < k → ∃ m, f (attempt + k - 1) = .opErr m ∧ lastExc' = some m) := by
  intro k
  induction k with
  | zero =>
    intro n attempt lastExc sleeps _
    refine ⟨lastExc, ?_, fun _ => rfl, fun h0 => absurd h0 (by omega)⟩
    simp
  | succ k ih =>
    intro n attempt lastExc sleeps hlock
    obtain ⟨m0, hf0, hl0⟩ := hlock 0 (by omega)
    rw [Nat.add_zero] at hf0
    have hstep := retryGo_lock_step f delay (k + n) attempt lastExc sleeps hf0 hl0
    have hshift : ∀ j, j < k → IsLockAttempt (f (attempt + 1 + j)) := by
      intro j hj
      have := hlock (j + 1) (by omega)
      rwa [show attempt + (j + 1) = attempt + 1 + j by omega] at this
    obtain ⟨lastExc', heq, hzero, hpos⟩ :=
      ih n (attempt + 1) (some m0) (sleeps ++ [delay * ((attempt + 1 : ℕ) : ℚ)]) hshift
    refine ⟨lastExc', ?_, fun h0 => absurd h0 (by omega), fun _ => ?_⟩
    · rw [show k + 1 + n = k + n + 1 by omega, hstep, heq,
        show attempt + 1 + k = attempt + (k + 1) by omega]
      congr 1
      rw [List.append_assoc]
      congr 1
      rw [List.range_succ_eq_map, List.map_cons, List.map_map]
      simp only [List.singleton_append, Nat.add_zero]
      congr 1
      refine List.map_congr_left fun j _ => ?_
      simp only [Function.comp_apply]
      congr 2
      omega
    · rcases Nat.eq_zero_or_pos k with hk0 | hkpos
      · subst hk0
        refine ⟨m0, ?_, hzero rfl⟩
        rwa [show attempt + (0 + 1) - 1 = attempt by omega]
      · obtain ⟨m, hfm, hlast⟩ := hpos hkpos
        refine ⟨m, ?_, hlast⟩
        rwa [show attempt + 1 + k - 1 = attempt + (k + 1) - 1 by omega] at hfm

/-- C8: the retry wrapper's policy.  Whenever the first `k` attempts all fail
with the lock/busy class: a success at attempt `k` returns the operation's
result after exactly `k+1` invocations; a non-lock `OperationalError` or any
other exception at attempt `k` propagates at once (after `k+1` invocations,
with no further retry); and if all `retries` attempts are lock failures the
last lock failure is surfaced.  The sleeps performed are the linearly
increasing schedule `delay*1, delay*2, …` — one per lock failure. -/
theorem retry_on_lock_spec {α : Type} (f : ℕ → Attempt α) (retries k : ℕ) (delay : ℚ)
    (hk : ∀ j, j < k → IsLockAttempt (f j)) :
    (∀ a : α, k < retries → f k = .ok a →
      retry_on_lock f retries delay =
        (.ok a, k + 1, (List.range k).map fun j => delay * ((j + 1 : ℕ) : ℚ))) ∧
    (∀ m : String, k < retries → f k = .opErr m → lockMsgB m = false →
      retry_on_lock f retries delay =
        (.raised true m, k + 1, (List.range k).map fun j => delay * ((j + 1 : ℕ) : ℚ))) ∧
    (∀ m : String, k < retries → f k = .otherErr m →
      retry_on_lock f retries delay =
        (.raised false m, k + 1, (List.range k).map fun j => delay * ((j + 1 : ℕ) : ℚ))) ∧
    (k = retries → 0 < retries →
      ∃ m : String, f (retries - 1) = .opErr m ∧
        retry_on_lock f retries delay =
          (.raised true m, retries,
            (List.range retries).map fun j => delay * ((j + 1 : ℕ) : ℚ))) := by
  have hmapfun : ∀ k' : ℕ, ((List.range k').map fun j => delay * ((0 + j + 1 : ℕ) : ℚ)) =
      (List.range k').map fun j => delay * ((j + 1 : ℕ) : ℚ) := by
    intro k'
    refine List.map_congr_left fun j _ => ?_
    congr 2
    omega
  have hpre : ∀ j, j < k → IsLockAttempt (f (0 + j)) := by
    intro j hj
    rw [Nat.zero_add]
    exact hk j hj
  refine ⟨?_, ?_, ?_, ?_⟩
  · intro a hlt hfk
    obtain ⟨lastExc', heq, _, _⟩ :=
      retryGo_locks_prefix f delay k (retries - k) 0 none [] hpre
    rw [retry_on_lock, show retries = k + (retries - k) by omega, heq,
      show retries - k = (retries - k - 1) + 1 by omega, retryGo]
    rw [Nat.zero_add, hfk]
    simp only [List.nil_append, hmapfun]
  · intro m hlt hfk hnl
    obtain ⟨lastExc', heq, _, _⟩ :=
      retryGo_locks_prefix f delay k (retries - k) 0 none [] hpre
    rw [retry_on_lock, show retries = k + (retries - k) by omega, heq,
      show retries - k = (retries - k - 1) + 1 by omega, retryGo]
    rw [Nat.zero_add, hfk]
    simp only [hnl, Bool.not_false, if_pos, List.nil_append, hmapfun]
  · intro m hlt hfk
    obtain ⟨lastExc', heq, _, _⟩ :=
      retryGo_locks_prefix f delay k (retries - k) 0 none [] hpre
    rw [retry_on_lock, show retries = k + (retries - k) by omega, heq,
      show retries - k = (retries - k - 1) + 1 by omega, retryGo]
    rw [Nat.zero_add, hfk]
    simp only [List.nil_append, hmapfun]
  · intro hkeq hpos
    subst hkeq
    obtain ⟨lastExc', heq, _, hlast⟩ :=
      retryGo_locks_prefix f delay k 0 0 none [] hpre
    obtain ⟨m, hfm, hsome⟩ := hlast hpos
    rw [Nat.zero_add] at hfm
    refine ⟨m, hfm, ?_⟩
    rw [Nat.add_zero, Nat.zero_add] at heq
    rw [retry_on_lock, heq, hsome, retryGo]
    simp only [List.nil_append, hmapfun]

/-- Attempt sequence for the C8 witness: one lock failure, then success. -/
def lockThenOk : ℕ → Attempt ℕ
  | 0 => .opErr "database is locked"
  | _ => .ok 42

/-- Witness for C8: with a lock failure followed by a success, the wrapper
returns the result after two invocations, having slept once. -/
theorem retry_on_lock_spec_witness :
    (∀ j, j < 1 → IsLockAttempt (lockThenOk j)) ∧ 1 < 3 ∧ lockThenOk 1 = .ok 42 ∧
      retry_on_lock lockThenOk 3 1 = (.ok 42, 2, [1]) := by
  have hlock : ∀ j, j < 1 → IsLockAttempt (lockThenOk j) := by
    intro j hj
    match j, hj with
    | 0, _ => exact ⟨"database is locked", rfl, by decide⟩
  refine ⟨hlock, by omega, rfl, ?_⟩
  have := (retry_on_lock_spec lockThenOk 3 1 1 hlock).1 42 (by omega) rfl
  rw [this]
  norm_num [List.range_succ]

/-! ## C5: `fetch_sounding` HTTP contract -/

/-- C5 (amended): 404 yields the "no data" result; any status other than 404
and other than exactly 200 — 2xx or not — raises an error whose message
contains the status code; status 200 proceeds to extraction, failing with the
missing-data-block error exactly when no `<pre>` block exists. -/
theorem fetch_sounding_status_spec (resp : HttpResponse) (sid : String) :
    (resp.status = 404 → fetch_sounding resp sid = .ok none) ∧
    (resp.status ≠ 404 → resp.status ≠ 200 →
      fetch_sounding resp sid = .error ("HTTP " ++ toString resp.status) ∧
      (toString resp.status).toList <:+: ("HTTP " ++ toString resp.status).toList) ∧
    (resp.status = 200 → resp.pre = none →
      fetch_sounding resp sid = .error "Нет блока <pre> с данными") ∧
    (resp.status = 200 → ∀ tb, resp.pre = some tb →
      fetch_sounding resp sid = .ok (some
        ⟨(parse_sounding tb).csv,
          (match resp.h3 with | some t => t | none => sid),
          parse_sounding tb⟩)) := by
  refine ⟨fun h404 => ?_, fun hn404 hn200 => ⟨?_, ?_⟩, fun h200 hpre => ?_,
    fun h200 tb hpre => ?_⟩
  · rw [fetch_sounding, if_pos h404]
  · rw [fetch_sounding, if_neg hn404, if_pos hn200]
  · exact ⟨"HTTP ".toList, [], by simp⟩
  · simp [fetch_sounding, h200, hpre]
  · simp [fetch_sounding, h200, hpre]

/-- Witness for C5 at a 404, a 500 and a 200 response. -/
theorem fetch_sounding_status_spec_witness :
    fetch_sounding ⟨404, none, none⟩ "S" = .ok none ∧
    fetch_sounding ⟨500, none, none⟩ "S" = .error ("HTTP " ++ toString 500) ∧
    fetch_sounding ⟨200, none, none⟩ "S" = .error "Нет блока <pre> с данными" :=
  ⟨(fetch_sounding_status_spec ⟨404, none, none⟩ "S").1 rfl,
    ((fetch_sounding_status_spec ⟨500, none, none⟩ "S").2.1 (by decide) (by decide)).1,
    (fetch_sounding_status_spec ⟨200, none, none⟩ "S").2.2.1 rfl rfl⟩

/-- C5 counterexample: status 201 is a 2xx status, yet the fetch does not
proceed to extraction — it raises the status-code error even though a `<pre>`
block is present, contradicting "any 2xx status proceeds to extraction". -/
theorem fetch_sounding_2xx_refuted :
    (200 ≤ 201 ∧ 201 < 300) ∧
    fetch_sounding ⟨201, none, some "PRES HGHT\n1.0 2.0\n"⟩ "S" = .error "HTTP 201" ∧
    (∀ r : Option FetchResult,
      fetch_sounding ⟨201, none, some "PRES HGHT\n1.0 2.0\n"⟩ "S" ≠ .ok r) ∧
    fetch_sounding ⟨201, none, some "PRES HGHT\n1.0 2.0\n"⟩ "S" ≠
      .error "Нет блока <pre> с данными" := by
  have heval : fetch_sounding ⟨201, none, some "PRES HGHT\n1.0 2.0\n"⟩ "S" =
      .error "HTTP 201" := by
    rw [fetch_sounding, if_neg (by decide), if_pos (by decide)]
    rfl
  refine ⟨⟨by omega, by omega⟩, heval, fun r => ?_, ?_⟩
  · rw [heval]
    intro hcontr
    cases hcontr
  · rw [heval]
    intro hcontr
    rw [Except.error.injEq] at hcontr
    have : "HTTP 201".toList = "Нет блока <pre> с данными".toList := by rw [hcontr]
    simp at this

/-! ## C6: fewer than two usable samples yield the undefined result -/

/-- C6: whenever, for the located height/absolute-humidity columns, fewer
than two usable `(height, absh)` samples survive the threshold-and-parse
filter, the integrator returns the undefined result (`None`) — by totality it
neither raises nor returns a number, in particular never `0`. -/
theorem compute_pwv_short_none (columns : List String) (rows : List Row) (minH : ℚ)
    (h : ∀ hcol acol, colMapGet columns "HGHT" = some hcol →
      colMapGet columns "ABSH" = some acol →
      (pwv_samples hcol acol rows minH).length < 2) :
    compute_pwv_for_record columns rows minH = none := by
  rw [compute_pwv_for_record]
  by_cases hguard : columns = [] ∨ rows = []
  · rw [if_pos hguard]
  · rw [if_neg hguard]
    cases hh : colMapGet columns "HGHT" with
    | none => rfl
    | some hcol =>
      cases ha : colMapGet columns "ABSH" with
      | none => rfl
      | some acol =>
        simp only
        rw [if_pos (h hcol acol hh ha)]

/-- Witness for C6: a single row with a height but no absolute humidity. -/
theorem compute_pwv_short_none_witness :
    (∀ hcol acol,
      colMapGet ["HGHT,m", "ABSH,g/m3"] "HGHT" = some hcol →
      colMapGet ["HGHT,m", "ABSH,g/m3"] "ABSH" = some acol →
      (pwv_samples hcol acol [[("HGHT,m", Cell.num 0)]] 0).length < 2) ∧
    compute_pwv_for_record ["HGHT,m", "ABSH,g/m3"] [[("HGHT,m", Cell.num 0)]] 0 = none := by
  have hh : colMapGet ["HGHT,m", "ABSH,g/m3"] "HGHT" = some "HGHT,m" := by decide
  have ha : colMapGet ["HGHT,m", "ABSH,g/m3"] "ABSH" = some "ABSH,g/m3" := by decide
  have hshort : ∀ hcol acol,
      colMapGet ["HGHT,m", "ABSH,g/m3"] "HGHT" = some hcol →
      colMapGet ["HGHT,m", "ABSH,g/m3"] "ABSH" = some acol →
      (pwv_samples hcol acol [[("HGHT,m", Cell.num 0)]] 0).length < 2 := by
    intro hcol acol h1 h2
    rw [hh, Option.some.injEq] at h1
    rw [ha, Option.some.injEq] at h2
    subst h1
    subst h2
    decide
  exact ⟨hshort, compute_pwv_short_none _ _ _ hshort⟩

/-! ## C7: permutation (in)variance of the integrator -/

lemma perm_sorted_fst_eq : ∀ {l₁ l₂ : List (ℚ × ℚ)}, l₁.Perm l₂ →
    (l₁.Pairwise fun a b => a.1 < b.1) → (l₂.Pairwise fun a b => a.1 < b.1) →
    l₁ = l₂
  | [], l₂, hp, _, _ => (hp.nil_eq).symm ▸ rfl
  | a :: t, l₂, hp, h1, h2 => by
    cases l₂ with
    | nil => exact absurd hp.symm (by simp)
    | cons b t₂ =>
      rw [List.pairwise_cons] at h1 h2
      have hab : a = b := by
        have hamem : a ∈ b :: t₂ := hp.mem_iff.1 (List.mem_cons_self a t)
        have hbmem : b ∈ a :: t := hp.symm.mem_iff.1 (List.mem_cons_self b t₂)
        rcases List.mem_cons.1 hamem with h | h
        · exact h
        · exfalso
          have hba : b.1 < a.1 := h2.1 a h
          rcases List.mem_cons.1 hbmem with h' | h'
          · rw [h'] at hba
            exact lt_irrefl _ hba
          · exact lt_irrefl _ (lt_trans hba (h1.1 b h'))
      subst hab
      have htp : t.Perm t₂ := hp.cons_inv
      rw [perm_sorted_fst_eq htp h1.2 h2.2]

instance : IsTotal (ℚ × ℚ) sampleLE := ⟨fun a b => le_total a.1 b.1⟩

instance : IsTrans (ℚ × ℚ) sampleLE := ⟨fun _ _ _ h1 h2 => le_trans h1 h2⟩

/-- C7 (amended): the integrator's result is invariant under permuting the
payload's rows provided the usable samples have pairwise distinct heights.
(With duplicate heights Python's stable sort preserves the input order of the
tied samples and the trapezoid sum can differ — see the counterexample.) -/
theorem compute_pwv_perm_invariant (columns : List String) (rows rows' : List Row)
    (minH : ℚ) (hperm : rows.Perm rows')
    (hdist : ∀ hcol acol, colMapGet columns "HGHT" = some hcol →
      colMapGet columns "ABSH" = some acol →
      (pwv_samples hcol acol rows minH).Pairwise fun a b => a.1 ≠ b.1) :
    compute_pwv_for_record columns rows' minH = compute_pwv_for_record columns rows minH := by
  rw [compute_pwv_for_record, compute_pwv_for_record]
  by_cases hcols : columns = []
  · rw [if_pos (Or.inl hcols), if_pos (Or.inl hcols)]
  · by_cases hrows : rows = []
    · have hrows' : rows' = [] := by
        subst hrows
        exact hperm.nil_eq.symm
      rw [if_pos (Or.inr hrows), if_pos (Or.inr hrows')]
    · have hrows' : rows' ≠ [] := by
        intro hnil
        subst hnil
        exact hrows hperm.symm.nil_eq.symm
      rw [if_neg (by tauto), if_neg (by tauto)]
      cases hh : colMapGet columns "HGHT" with
      | none => rfl
      | some hcol =>
        cases ha : colMapGet columns "ABSH" with
        | none => rfl
        | some acol =>
          simp only
          have hsp : (pwv_samples hcol acol rows minH).Perm
              (pwv_samples hcol acol rows' minH) := hperm.filterMap _
          have hlen : (pwv_samples hcol acol rows' minH).length =
              (pwv_samples hcol acol rows minH).length := hsp.symm.length_eq
          by_cases hshort : (pwv_samples hcol acol rows minH).length < 2
          · rw [if_pos (hlen ▸ hshort), if_pos hshort]
          · rw [if_neg (by omega), if_neg hshort]
            have hdistinct := hdist hcol acol hh ha
            have hsorteq : (pwv_samples hcol acol rows' minH).insertionSort sampleLE =
                (pwv_samples hcol acol rows minH).insertionSort sampleLE := by
              have hperm2 : ((pwv_samples hcol acol rows' minH).insertionSort sampleLE).Perm
                  ((pwv_samples hcol acol rows minH).insertionSort sampleLE) :=
                ((List.perm_insertionSort _ _).trans hsp.symm).trans
                  (List.perm_insertionSort _ _).symm
              have hd1 : ((pwv_samples hcol acol rows minH).insertionSort
                  sampleLE).Pairwise fun a b => a.1 ≠ b.1 :=
                ((List.perm_insertionSort sampleLE _).pairwise_iff
                  (fun h => Ne.symm h)).2 hdistinct
              have hd2 : ((pwv_samples hcol acol rows' minH).insertionSort
                  sampleLE).Pairwise fun a b => a.1 ≠ b.1 :=
                ((List.perm_insertionSort sampleLE _).pairwise_iff
                  (fun h => Ne.symm h)).2
                  ((hsp.pairwise_iff (fun h => Ne.symm h)).1 hdistinct)
              have hs1 : ((pwv_samples hcol acol rows minH).insertionSort
                  sampleLE).Pairwise sampleLE := List.sorted_insertionSort _ _
              have hs2 : ((pwv_samples hcol acol rows' minH).insertionSort
                  sampleLE).Pairwise sampleLE := List.sorted_insertionSort _ _
              refine perm_sorted_fst_eq hperm2 ?_ ?_
              · exact (hs2.and hd2).imp fun hab => lt_of_le_of_ne hab.1 hab.2
              · exact (hs1.and hd1).imp fun hab => lt_of_le_of_ne hab.1 hab.2
            rw [hsorteq]

/-- Rows with two samples at the same height 0 (absolute humidities 0 and 2)
and one sample at height 1. -/
def pwvRowsA : List Row :=
  [[("HGHT,m", .num 0), ("ABSH,g/m3", .num 0)],
   [("HGHT,m", .num 0), ("ABSH,g/m3", .num 2)],
   [("HGHT,m", .num 1), ("ABSH,g/m3", .num 0)]]

/-- The same rows with the two height-0 samples swapped. -/
def pwvRowsB : List Row :=
  [[("HGHT,m", .num 0), ("ABSH,g/m3", .num 2)],
   [("HGHT,m", .num 0), ("ABSH,g/m3", .num 0)],
   [("HGHT,m", .num 1), ("ABSH,g/m3", .num 0)]]

lemma compute_pwv_concrete (rows : List Row) (hne : rows ≠ [])
    (samples sorted : List (ℚ × ℚ))
    (hs : pwv_samples "HGHT,m" "ABSH,g/m3" rows 0 = samples)
    (hlen : ¬ samples.length < 2)
    (hsort : samples.insertionSort sampleLE = sorted) :
    compute_pwv_for_record ["HGHT,m", "ABSH,g/m3"] rows 0 = some (trapz sorted / 1000) := by
  rw [compute_pwv_for_record, if_neg (by simp [hne]),
    show colMapGet ["HGHT,m", "ABSH,g/m3"] "HGHT" = some "HGHT,m" by decide,
    show colMapGet ["HGHT,m", "ABSH,g/m3"] "ABSH" = some "ABSH,g/m3" by decide]
  simp only [hs, hsort, if_neg hlen]

/-- C7 counterexample: the two row lists are permutations of each other, yet
the integrator returns different values — two samples at the same height in
different input orders pair up differently with their height-1 neighbour
under Python's stable sort, so permuting the payload's rows changes the
result. -/
theorem compute_pwv_perm_refuted :
    pwvRowsA.Perm pwvRowsB ∧
    compute_pwv_for_record ["HGHT,m", "ABSH,g/m3"] pwvRowsA 0 = some (1 / 1000) ∧
    compute_pwv_for_record ["HGHT,m", "ABSH,g/m3"] pwvRowsB 0 = some 0 ∧
    compute_pwv_for_record ["HGHT,m", "ABSH,g/m3"] pwvRowsA 0 ≠
      compute_pwv_for_record ["HGHT,m", "ABSH,g/m3"] pwvRowsB 0 := by
  have hA : compute_pwv_for_record ["HGHT,m", "ABSH,g/m3"] pwvRowsA 0 =
      some (trapz [((0:ℚ),(0:ℚ)),(0,2),(1,0)] / 1000) :=
    compute_pwv_concrete pwvRowsA (by decide) [((0:ℚ),(0:ℚ)),(0,2),(1,0)]
      [((0:ℚ),(0:ℚ)),(0,2),(1,0)] (by decide) (by decide) (by decide)
  have hB : compute_pwv_for_record ["HGHT,m", "ABSH,g/m3"] pwvRowsB 0 =
      some (trapz [((0:ℚ),(2:ℚ)),(0,0),(1,0)] / 1000) :=
    compute_pwv_concrete pwvRowsB (by decide) [((0:ℚ),(2:ℚ)),(0,0),(1,0)]
      [((0:ℚ),(2:ℚ)),(0,0),(1,0)] (by decide) (by decide) (by decide)
  have hA' : compute_pwv_for_record ["HGHT,m", "ABSH,g/m3"] pwvRowsA 0 = some (1 / 1000) := by
    rw [hA]
    norm_num [trapz]
  have hB' : compute_pwv_for_record ["HGHT,m", "ABSH,g/m3"] pwvRowsB 0 = some 0 := by
    rw [hB]
    norm_num [trapz]
  refine ⟨?_, hA', hB', ?_⟩
  · exact List.Perm.swap _ _ _
  · rw [hA', hB']
    intro hcontr
    rw [Option.some.injEq] at hcontr
    norm_num at hcontr

/-- Witness for the amended C7 with distinct heights: swapping two rows does
not change the integral. -/
theorem compute_pwv_perm_invariant_witness :
    ([[("HGHT,m", Cell.num 1), ("ABSH,g/m3", Cell.num 2)],
      [("HGHT,m", Cell.num 0), ("ABSH,g/m3", Cell.num 3)]] : List Row).Perm
      [[("HGHT,m", Cell.num 0), ("ABSH,g/m3", Cell.num 3)],
       [("HGHT,m", Cell.num 1), ("ABSH,g/m3", Cell.num 2)]] ∧
    compute_pwv_for_record ["HGHT,m", "ABSH,g/m3"]
      [[("HGHT,m", Cell.num 0), ("ABSH,g/m3", Cell.num 3)],
       [("HGHT,m", Cell.num 1), ("ABSH,g/m3", Cell.num 2)]] 0 =
    compute_pwv_for_record ["HGHT,m", "ABSH,g/m3"]
      [[("HGHT,m", Cell.num 1), ("ABSH,g/m3", Cell.num 2)],
       [("HGHT,m", Cell.num 0), ("ABSH,g/m3", Cell.num 3)]] 0 := by
  have hperm : ([[("HGHT,m", Cell.num 1), ("ABSH,g/m3", Cell.num 2)],
      [("HGHT,m", Cell.num 0), ("ABSH,g/m3", Cell.num 3)]] : List Row).Perm
      [[("HGHT,m", Cell.num 0), ("ABSH,g/m3", Cell.num 3)],
       [("HGHT,m", Cell.num 1), ("ABSH,g/m3", Cell.num 2)]] :=
    List.Perm.swap _ _ _
  refine ⟨hperm, compute_pwv_perm_invariant _ _ _ _ hperm ?_⟩
  intro hcol acol h1 h2
  rw [show colMapGet ["HGHT,m", "ABSH,g/m3"] "HGHT" = some "HGHT,m" by decide,
    Option.some.injEq] at h1
  rw [show colMapGet ["HGHT,m", "ABSH,g/m3"] "ABSH" = some "ABSH,g/m3" by decide,
    Option.some.injEq] at h2
  subst h1
  subst h2
  decide

/-! ## C4: failure handling in `DownloadWorker._run` -/

/-- The error message recorded for a failed item, `None` otherwise. -/
def errOf (item : ℚ × FetchOut) : Option String :=
  match item.2 with
  | .exn _ m => some (dtStr item.1 ++ " ошибка: " ++ m)
  | _ => none

/-- Retag a transport-class exception as a per-item one (message kept). -/
def reclassPerItem (item : ℚ × FetchOut) : ℚ × FetchOut :=
  match item with
  | (dt, .exn _ m) => (dt, .exn .perItem m)
  | it => it

lemma processItem_reclass (cfg : RunCfg) (now : ℚ) (total : ℕ) (st : WorkerState)
    (item : ℚ × FetchOut) :
    processItem cfg now total st (reclassPerItem item) = processItem cfg now total st item := by
  obtain ⟨dt, out⟩ := item
  cases out <;> rfl

lemma run_fold_spec (cfg : RunCfg) (now : ℚ) (total : ℕ) :
    ∀ (items : List (ℚ × FetchOut)) (st : WorkerState),
      ((items.foldl (processItem cfg now total) st).done = st.done + items.length) ∧
      ((items.foldl (processItem cfg now total) st).errors =
        st.errors ++ items.filterMap errOf) := by
  intro items
  induction items with
  | nil =>
    intro st
    simp
  | cons item rest ih =>
    intro st
    obtain ⟨dt, out⟩ := item
    rw [List.foldl_cons]
    obtain ⟨ihd, ihe⟩ := ih (processItem cfg now total st (dt, out))
    constructor
    · rw [ihd]
      cases out <;> simp [processItem] <;> omega
    · rw [ihe]
      cases out <;> simp [processItem, errOf, List.filterMap_cons]

lemma run_fold_reclass (cfg : RunCfg) (now : ℚ) (total : ℕ) :
    ∀ (items : List (ℚ × FetchOut)) (st : WorkerState),
      (items.map reclassPerItem).foldl (processItem cfg now total) st =
        items.foldl (processItem cfg now total) st := by
  intro items
  induction items with
  | nil => intro st; rfl
  | cons item rest ih =>
    intro st
    rw [List.map_cons, List.foldl_cons, List.foldl_cons, processItem_reclass]
    exact ih _

/-- C4 (amended): the worker treats a transport-class exception exactly like
any per-item exception: the item's error is recorded and the run continues —
every settled item is processed (`done` reaches the total), the recorded
errors are precisely the failed items' messages in completion order, retagging
transport errors as per-item errors leaves the entire run result unchanged,
and the session ends successfully iff no item failed (so a failed run still
processes everything first; only cooperative cancellation aborts work). -/
theorem run_worker_uniform_failures (cfg : RunCfg) (now : ℚ) (db0 : SoundingDB)
    (st0 : List StationRow) (items : List (ℚ × FetchOut)) (hne : items ≠ []) :
    ((run_worker cfg now db0 st0 items).1.done = items.length) ∧
    ((run_worker cfg now db0 st0 items).1.errors = items.filterMap errOf) ∧
    (run_worker cfg now db0 st0 (items.map reclassPerItem) =
      run_worker cfg now db0 st0 items) ∧
    ((run_worker cfg now db0 st0 items).2.1 = true ↔ items.filterMap errOf = []) := by
  have hne' : items.map reclassPerItem ≠ [] := by
    intro h
    exact hne (List.map_eq_nil_iff.1 h)
  have hfold := run_fold_spec cfg now items.length items ⟨db0, st0, 0, [], [], []⟩
  refine ⟨?_, ?_, ?_, ?_⟩
  · rw [run_worker, if_neg hne]
    simpa using hfold.1
  · rw [run_worker, if_neg hne]
    simpa using hfold.2
  · rw [run_worker, run_worker, if_neg hne, if_neg hne']
    rw [List.length_map, run_fold_reclass]
  · rw [run_worker, if_neg hne]
    have herr : (items.foldl (processItem cfg now items.length)
        ⟨db0, st0, 0, [], [], []⟩).errors = items.filterMap errOf := by
      simpa using hfold.2
    simp only [herr]
    by_cases hcase : items.filterMap errOf = []
    · rw [if_pos hcase]
      simp [hcase]
    · rw [if_neg hcase]
      simp [hcase]

/-- Witness for the amended C4: one transport failure, one success. -/
theorem run_worker_uniform_failures_witness :
    ([((1 : ℚ), FetchOut.exn .transport "conn"), (2, FetchOut.success "N" "P")] ≠
      ([] : List (ℚ × FetchOut))) ∧
    ((run_worker ⟨"S", "Name"⟩ 0 ⟨[], 0⟩ []
        [(1, .exn .transport "conn"), (2, .success "N" "P")]).1.done = 2) ∧
    ((run_worker ⟨"S", "Name"⟩ 0 ⟨[], 0⟩ []
        [(1, .exn .transport "conn"), (2, .success "N" "P")]).2.1 = true ↔
      ([(1, FetchOut.exn .transport "conn"),
        (2, FetchOut.success "N" "P")].filterMap errOf = [])) := by
  have h := run_worker_uniform_failures ⟨"S", "Name"⟩ 0 ⟨[], 0⟩ []
    [(1, .exn .transport "conn"), (2, .success "N" "P")] (by simp)
  exact ⟨by simp, h.1, h.2.2.2⟩

/-- C4 counterexample: in a run whose first completion is a transport-level
failure, the claim says the remaining run is aborted (outstanding work
cancelled); in fact the worker processes the remaining instant and persists
its result, finishing only afterwards with the `Failed` flag. -/
theorem run_worker_transport_not_aborting :
    ((run_worker ⟨"S", "Name"⟩ 0 ⟨[], 0⟩ []
        [(1, .exn .transport "conn"), (2, .success "N" "P")]).1.done = 2) ∧
    ((run_worker ⟨"S", "Name"⟩ 0 ⟨[], 0⟩ []
        [(1, .exn .transport "conn"), (2, .success "N" "P")]).1.db.rows =
      [⟨0, "S", some "N", 2, 0, "P"⟩]) ∧
    ((run_worker ⟨"S", "Name"⟩ 0 ⟨[], 0⟩ []
        [(1, .exn .transport "conn"), (2, .success "N" "P")]).2.1 = false) ∧
    ¬ (((run_worker ⟨"S", "Name"⟩ 0 ⟨[], 0⟩ []
        [(1, .exn .transport "conn"), (2, .success "N" "P")]).1.done ≤ 1) ∨
      ((run_worker ⟨"S", "Name"⟩ 0 ⟨[], 0⟩ []
        [(1, .exn .transport "conn"), (2, .success "N" "P")]).1.db.rows = [])) := by
  refine ⟨by decide, by decide, by decide, ?_⟩
  intro hcontr
  rcases hcontr with h | h
  · have : (run_worker ⟨"S", "Name"⟩ 0 ⟨[], 0⟩ []
        [(1, .exn .transport "conn"), (2, .success "N" "P")]).1.done = 2 := by decide
    omega
  · have : (run_worker ⟨"S", "Name"⟩ 0 ⟨[], 0⟩ []
        [(1, .exn .transport "conn"), (2, .success "N" "P")]).1.db.rows =
        [⟨0, "S", some "N", 2, 0, "P"⟩] := by decide
    rw [this] at h
    cases h

/-! ## C3: the derived ABSH column is numeric or absent -/

lemma digitValC0 : digitVal '0' = 0 := by decide
lemma digitValC1 : digitVal '1' = 1 := by decide
lemma digitValC2 : digitVal '2' = 2 := by decide
lemma digitValC3 : digitVal '3' = 3 := by decide
lemma digitValC4 : digitVal '4' = 4 := by decide
lemma digitValC5 : digitVal '5' = 5 := by decide
lemma digitValC6 : digitVal '6' = 6 := by decide
lemma digitValC7 : digitVal '7' = 7 := by decide
lemma digitValC8 : digitVal '8' = 8 := by decide
lemma digitValC9 : digitVal '9' = 9 := by decide

lemma dget_dinsert_self (r : Row) (k : String) (v : Cell) :
    dget (dinsert r k v) k = some v := by
  rw [dinsert]
  by_cases hany : r.any fun kv => kv.1 == k
  · rw [if_pos hany]
    have hpres : ∀ kv : String × Cell,
        ((if kv.1 == k then (k, v) else kv).1 == k) = (kv.1 == k) := by
      intro kv
      by_cases hkv : kv.1 == k
      · rw [if_pos hkv, hkv]
        exact beq_self_eq_true k
      · rw [Bool.not_eq_true] at hkv
        rw [if_neg (by rw [hkv]; exact Bool.false_ne_true)]
    rw [dget, find?_map_of_pres hpres]
    obtain ⟨kv0, hmem, hkv0⟩ := List.any_eq_true.1 hany
    obtain ⟨kv1, hfind⟩ := Option.isSome_iff_exists.1
      ((List.find?_isSome (p := fun kv => kv.1 == k)).2 ⟨kv0, hmem, hkv0⟩)
    rw [hfind]
    have hkv1 : (kv1.1 == k) = true :=
      List.find?_some (p := fun kv : String × Cell => kv.1 == k) hfind
    simp only [Option.map_some', if_pos hkv1]
  · rw [if_neg hany]
    rw [Bool.not_eq_true] at hany
    have hnone : r.find? (fun kv => kv.1 == k) = none := by
      rw [List.find?_eq_none]
      intro kv hkv
      have := List.any_eq_false.1 hany kv hkv
      simp [this]
    rw [dget, List.find?_append, hnone]
    simp

lemma compute_absh_eq_none_iff (relh temp : Option ℚ) :
    compute_absh relh temp = none ↔
      relh = none ∨ temp = none ∨
        (∃ t : ℚ, temp = some t ∧ (t + 243.5 = 0 ∨ 273.15 + t = 0)) := by
  cases relh with
  | none => simp [compute_absh]
  | some rh =>
    cases temp with
    | none => simp [compute_absh]
    | some t =>
      rw [compute_absh]
      by_cases hguard : t + 243.5 = 0 ∨ 273.15 + t = 0
      · rw [if_pos hguard]
        simp [hguard]
      · rw [if_neg hguard]
        simp [hguard]

/-- C3 (amended): whenever the parsed header contains both `RELH` and `TEMP`,
the parsed payload has exactly one labeled row per scanned raw row, and the
`i`-th labeled row carries an `ABSH` entry that is numeric or absent (never a
string and never a defaulted zero); it is absent exactly when the `i`-th raw
row — the row this labeled row derives from — has a `RELH` or `TEMP` value
that is absent/non-numeric **or** makes the formula's guarded denominators
vanish (`TEMP = -243.5` or `TEMP = -273.15`, the `ZeroDivisionError` cases
swallowed by the `except`). -/
theorem parse_sounding_absh_spec (text : String)
    (hR : "RELH" ∈ (scanLines (pySplitlines text) false [] []).1)
    (hT : "TEMP" ∈ (scanLines (pySplitlines text) false [] []).1) :
    (parse_sounding text).rows.length =
      (scanLines (pySplitlines text) false [] []).2.length ∧
    ∀ i : ℕ, ∀ lrow : Row, (parse_sounding text).rows[i]? = some lrow →
      ∀ raw : Row, (scanLines (pySplitlines text) false [] []).2[i]? = some raw →
      ∃ c : Cell,
        dget lrow "ABSH,g/m3" = some c ∧
        ((∃ q : ℚ, c = .num q) ∨ c = .absent) ∧
        (c = .absent ↔
          (numOfCell (dget raw "RELH") = none ∨ numOfCell (dget raw "TEMP") = none ∨
            (∃ t : ℚ, numOfCell (dget raw "TEMP") = some t ∧
              (t + 243.5 = 0 ∨ 273.15 + t = 0)))) := by
  obtain ⟨cols, rows, hscan⟩ : ∃ cols rows,
      scanLines (pySplitlines text) false [] [] = (cols, rows) :=
    ⟨_, _, rfl⟩
  have hfst : (scanLines (pySplitlines text) false [] []).1 = cols := by rw [hscan]
  have hsnd : (scanLines (pySplitlines text) false [] []).2 = rows := by rw [hscan]
  rw [hfst] at hR hT
  rw [hsnd]
  have hcontains : (cols.contains "RELH" && cols.contains "TEMP") = true := by
    rw [Bool.and_eq_true]
    exact ⟨List.elem_eq_true_of_mem hR, List.elem_eq_true_of_mem hT⟩
  have haug : addAbsh cols rows =
      (cols ++ ["ABSH"], rows.map fun row =>
        dinsert row "ABSH"
          (match compute_absh (numOfCell (dget row "RELH")) (numOfCell (dget row "TEMP")) with
           | some q => .num q
           | none => .absent)) := by
    rw [addAbsh, if_pos hcontains]
  have hrows : (parse_sounding text).rows =
      (rows.map fun row =>
        dinsert row "ABSH"
          (match compute_absh (numOfCell (dget row "RELH")) (numOfCell (dget row "TEMP")) with
           | some q => .num q
           | none => .absent)).map (relabelRow (cols ++ ["ABSH"])) := by
    rw [parse_sounding, hscan]
    simp only [haug]
  refine ⟨by rw [hrows]; simp, ?_⟩
  intro i lrow hlrow raw hraw
  rw [hrows, List.getElem?_map, List.getElem?_map, hraw, Option.map_some',
    Option.map_some', Option.some.injEq] at hlrow
  set cVal : Cell :=
    (match compute_absh (numOfCell (dget raw "RELH")) (numOfCell (dget raw "TEMP")) with
     | some q => Cell.num q
     | none => Cell.absent) with hcVal
  have hlget : dget lrow "ABSH,g/m3" = some cVal := by
    rw [← hlrow]
    show dget (relabelRow (cols ++ ["ABSH"]) (dinsert raw "ABSH" cVal)) "ABSH,g/m3" = some cVal
    rw [relabelRow, List.foldl_append, List.foldl_cons, List.foldl_nil]
    show dget (dinsert _ (labelOf "ABSH")
      ((dget (dinsert raw "ABSH" cVal) "ABSH").getD Cell.absent)) "ABSH,g/m3" = some cVal
    rw [dget_dinsert_self raw "ABSH" cVal]
    show dget (dinsert _ "ABSH,g/m3" cVal) "ABSH,g/m3" = some cVal
    exact dget_dinsert_self _ _ _
  refine ⟨cVal, hlget, ?_, ?_⟩
  · rw [hcVal]
    cases compute_absh (numOfCell (dget raw "RELH")) (numOfCell (dget raw "TEMP")) with
    | some q => exact Or.inl ⟨q, rfl⟩
    | none => exact Or.inr rfl
  · rw [hcVal, ← compute_absh_eq_none_iff]
    cases compute_absh (numOfCell (dget raw "RELH")) (numOfCell (dget raw "TEMP")) with
    | some q => simp
    | none => simp

/-- Witness for the amended C3 on a block with one numeric row and one row
whose temperature token is not numeric. -/
theorem parse_sounding_absh_spec_witness :
    ("RELH" ∈ (scanLines (pySplitlines "PRES TEMP RELH\n1.0 20.0 70.0\n 2.0 xx 50.0\n")
        false [] []).1) ∧
    ("TEMP" ∈ (scanLines (pySplitlines "PRES TEMP RELH\n1.0 20.0 70.0\n 2.0 xx 50.0\n")
        false [] []).1) ∧
    ((parse_sounding "PRES TEMP RELH\n1.0 20.0 70.0\n 2.0 xx 50.0\n").rows.length =
      (scanLines (pySplitlines "PRES TEMP RELH\n1.0 20.0 70.0\n 2.0 xx 50.0\n")
        false [] []).2.length ∧
    ∀ i : ℕ, ∀ lrow : Row,
      (parse_sounding "PRES TEMP RELH\n1.0 20.0 70.0\n 2.0 xx 50.0\n").rows[i]? =
        some lrow →
      ∀ raw : Row,
      (scanLines (pySplitlines "PRES TEMP RELH\n1.0 20.0 70.0\n 2.0 xx 50.0\n")
        false [] []).2[i]? = some raw →
      ∃ c : Cell,
        dget lrow "ABSH,g/m3" = some c ∧
        ((∃ q : ℚ, c = .num q) ∨ c = .absent) ∧
        (c = .absent ↔
          (numOfCell (dget raw "RELH") = none ∨ numOfCell (dget raw "TEMP") = none ∨
            (∃ t : ℚ, numOfCell (dget raw "TEMP") = some t ∧
              (t + 243.5 = 0 ∨ 273.15 + t = 0))))) := by
  have hcols : (scanLines (pySplitlines "PRES TEMP RELH\n1.0 20.0 70.0\n 2.0 xx 50.0\n")
      false [] []).1 = ["PRES", "TEMP", "RELH"] := by
    norm_num +decide [scanLines, pySplitlines, pyStrip, pySplitWs, wsSplit, isWs,
      pyStartsWith, is_number, pyFloat?, pyFloatAux, takeDigits, charsVal, Nat.ofDigits,
      digitValC0, digitValC1, digitValC2, digitValC3, digitValC4, digitValC5,
      digitValC6, digitValC7, digitValC8, digitValC9, beq_eq_decide, buildRow,
      tokenCell, dinsert, dget, List.zip, List.zipWith, List.foldl, List.find?, List.any]
  have hR : "RELH" ∈ (scanLines (pySplitlines "PRES TEMP RELH\n1.0 20.0 70.0\n 2.0 xx 50.0\n")
      false [] []).1 := by
    rw [hcols]
    decide
  have hT : "TEMP" ∈ (scanLines (pySplitlines "PRES TEMP RELH\n1.0 20.0 70.0\n 2.0 xx 50.0\n")
      false [] []).1 := by
    rw [hcols]
    decide
  exact ⟨hR, hT, parse_sounding_absh_spec _ hR hT⟩

/-- C3 counterexample: in the block below both `RELH` (50.0) and `TEMP`
(-243.5) are numeric, yet the row's ABSH value is absent — the division
`17.67*T/(T+243.5)` raises `ZeroDivisionError`, which `_compute_absh` swallows
into `None`.  This refutes "the value is absent exactly when that row's RELH
or TEMP value is absent or not numeric". -/
theorem parse_sounding_absh_refuted :
    (parse_sounding "PRES TEMP RELH\n1.0 -243.5 50.0\n").rows =
      [[("PRES,hPa", .num 1), ("TEMP,C", .num (-243.5)), ("RELH,%", .num 50),
        ("ABSH,g/m3", .absent)]] ∧
    dget [("PRES,hPa", Cell.num 1), ("TEMP,C", Cell.num (-243.5)),
        ("RELH,%", Cell.num 50), ("ABSH,g/m3", Cell.absent)] "TEMP,C" =
      some (.num (-243.5)) ∧
    dget [("PRES,hPa", Cell.num 1), ("TEMP,C", Cell.num (-243.5)),
        ("RELH,%", Cell.num 50), ("ABSH,g/m3", Cell.absent)] "RELH,%" =
      some (.num 50) ∧
    dget [("PRES,hPa", Cell.num 1), ("TEMP,C", Cell.num (-243.5)),
        ("RELH,%", Cell.num 50), ("ABSH,g/m3", Cell.absent)] "ABSH,g/m3" =
      some .absent := by
  refine ⟨?_, ?_, ?_, ?_⟩
  · norm_num +decide [parse_sounding, scanLines, pySplitlines, pyStrip, pySplitWs, wsSplit,
      isWs, pyStartsWith, is_number, tokenCell, pyFloat?, pyFloatAux, takeDigits, charsVal,
      Nat.ofDigits, digitValC0, digitValC1, digitValC2, digitValC3, digitValC4,
      digitValC5, digitValC6, digitValC7, digitValC8, digitValC9, beq_eq_decide,
      buildRow, dinsert, dget, numOfCell, addAbsh, compute_absh, labelOf, columnUnits,
      relabelRow, List.zip, List.zipWith, List.foldl, List.find?, List.any]
  · norm_num +decide [dget, List.find?, beq_eq_decide]
  · norm_num +decide [dget, List.find?, beq_eq_decide]
  · norm_num +decide [dget, List.find?, beq_eq_decide]

/-! ## C9: the concrete five-column example -/

lemma decRound15_le (q : ℚ) : decRound15 q ≤ q := by
  rw [decRound15, div_le_iff₀ (by norm_num)]
  exact Int.floor_le _

lemma decRound15_gt (q : ℚ) : q - 1 / 10 ^ 15 < decRound15 q := by
  rw [decRound15, lt_div_iff₀ (by norm_num)]
  have := Int.lt_floor_add_one (q * 10 ^ 15)
  ring_nf
  ring_nf at this
  linarith

lemma factE3 : Nat.factorial 3 = 6 := by decide
lemma factE4 : Nat.factorial 4 = 24 := by decide
lemma factE5 : Nat.factorial 5 = 120 := by decide
lemma factE6 : Nat.factorial 6 = 720 := by decide
lemma factE7 : Nat.factorial 7 = 5040 := by decide
lemma factE8 : Nat.factorial 8 = 40320 := by decide
lemma factE9 : Nat.factorial 9 = 362880 := by decide
lemma factE10 : Nat.factorial 10 = 3628800 := by decide
lemma factE11 : Nat.factorial 11 = 39916800 := by decide
lemma factE12 : Nat.factorial 12 = 479001600 := by decide
lemma factE13 : Nat.factorial 13 = 6227020800 := by decide
lemma factE14 : Nat.factorial 14 = 87178291200 := by decide

/-- The ABSH value of the C9 example row: the saturation-vapour-pressure
formula at `T = 20.0`, `RH = 70.0` (in the model: Taylor `exp` and a
15-decimal rounding standing in for binary64 arithmetic). -/
def absh9 : ℚ :=
  decRound15 (6.112 * pyexp (17.67 * 20 / (20 + 243.5)) * 70 * 2.1674 / (273.15 + 20))

set_option maxHeartbeats 4000000 in
/-- C9: the example header and data row parse to exactly the six labeled
columns and one row whose ABSH value is `_compute_absh(70.0, 20.0)` — the
formula `6.112 * exp(17.67*T/(T+243.5)) * RH * 2.1674 / (273.15+T)` at
`T = 20`, `RH = 70` — which is `12.1 g/m³` within `0.01` tolerance. -/
theorem parse_sounding_c9_example :
    (parse_sounding
        "PRES   HGHT   TEMP   DWPT   RELH\n 1000.0   100   20.0   15.0   70.0\n").columns =
      ["PRES,hPa", "HGHT,m", "TEMP,C", "DWPT,C", "RELH,%", "ABSH,g/m3"] ∧
    (parse_sounding
        "PRES   HGHT   TEMP   DWPT   RELH\n 1000.0   100   20.0   15.0   70.0\n").rows =
      [[("PRES,hPa", .num 1000), ("HGHT,m", .num 100), ("TEMP,C", .num 20),
        ("DWPT,C", .num 15), ("RELH,%", .num 70), ("ABSH,g/m3", .num absh9)]] ∧
    compute_absh (some 70) (some 20) = some absh9 ∧
    |absh9 - 12.1| < 1 / 100 := by
  refine ⟨?_, ?_, ?_, ?_⟩
  · norm_num +decide [parse_sounding, scanLines, pySplitlines, pyStrip, pySplitWs, wsSplit,
      isWs, pyStartsWith, is_number, tokenCell, pyFloat?, pyFloatAux, takeDigits, charsVal,
      Nat.ofDigits, digitValC0, digitValC1, digitValC2, digitValC3, digitValC4,
      digitValC5, digitValC6, digitValC7, digitValC8, digitValC9, beq_eq_decide,
      buildRow, dinsert, dget, numOfCell, addAbsh, compute_absh, labelOf, columnUnits,
      relabelRow, List.zip, List.zipWith, List.foldl, List.find?, List.any]
  · rw [absh9]
    norm_num +decide [parse_sounding, scanLines, pySplitlines, pyStrip, pySplitWs, wsSplit,
      isWs, pyStartsWith, is_number, tokenCell, pyFloat?, pyFloatAux, takeDigits, charsVal,
      Nat.ofDigits, digitValC0, digitValC1, digitValC2, digitValC3, digitValC4,
      digitValC5, digitValC6, digitValC7, digitValC8, digitValC9, beq_eq_decide,
      buildRow, dinsert, dget, numOfCell, addAbsh, compute_absh, labelOf,
      columnUnits, relabelRow, List.zip, List.zipWith, List.foldl, List.find?, List.any]
  · rw [compute_absh, if_neg (by norm_num), absh9]
  · have hy : |6.112 * pyexp (17.67 * 20 / (20 + 243.5)) * 70 * 2.1674 / (273.15 + 20) -
        12.1| < 1 / 150 := by
      rw [pyexp]
      norm_num [List.range_succ, abs_lt, factE3, factE4, factE5, factE6, factE7, factE8,
        factE9, factE10, factE11, factE12, factE13, factE14]
    rw [abs_lt] at hy ⊢
    have h1 := decRound15_le
      (6.112 * pyexp (17.67 * 20 / (20 + 243.5)) * 70 * 2.1674 / (273.15 + 20))
    have h2 := decRound15_gt
      (6.112 * pyexp (17.67 * 20 / (20 + 243.5)) * 70 * 2.1674 / (273.15 + 20))
    rw [absh9]
    constructor <;> [linarith; linarith]

/-! ## C2: serialization round-trip

### Printer/parser round-trip for finite decimals -/

lemma decDigitsRev_eq_digits : ∀ (f n : ℕ), n ≤ f → decDigitsRev f n = Nat.digits 10 n := by
  intro f
  induction f with
  | zero =>
    intro n hn
    interval_cases n
    simp [decDigitsRev]
  | succ f ih =>
    intro n hn
    rw [decDigitsRev]
    by_cases hn0 : n = 0
    · subst hn0
      simp
    · rw [if_neg hn0, Nat.digits_def' (by norm_num : 1 < 10) (Nat.pos_of_ne_zero hn0),
        ih (n / 10) ?_]
      have : n / 10 < n := Nat.div_lt_self (Nat.pos_of_ne_zero hn0) (by norm_num)
      omega

lemma digitVal_ofNat {d : ℕ} (hd : d < 10) : digitVal (Char.ofNat (48 + d)) = d := by
  interval_cases d <;> decide

lemma isDigit_ofNat {d : ℕ} (hd : d < 10) : (Char.ofNat (48 + d)).isDigit = true := by
  interval_cases d <;> decide

lemma isDigit_facts {c : Char} (h : c.isDigit = true) :
    c ≠ '-' ∧ c ≠ '+' ∧ c ≠ '.' ∧ c ≠ ';' ∧ c ≠ '"' ∧ isWs c = false := by
  have hne : ∀ x : Char, x.isDigit = false → c ≠ x := by
    intro x hx hcx
    rw [hcx, hx] at h
    cases h
  refine ⟨hne '-' (by decide), hne '+' (by decide), hne '.' (by decide),
    hne ';' (by decide), hne '"' (by decide), ?_⟩
  rw [isWs]
  have h1 := hne ' ' (by decide)
  have h2 := hne '\t' (by decide)
  have h3 := hne '\n' (by decide)
  have h4 := hne '\r' (by decide)
  simp [h1, h2, h3, h4]

lemma charsVal_digitChars (L : List ℕ) (hL : ∀ d ∈ L, d < 10) :
    charsVal (L.reverse.map fun d => Char.ofNat (48 + d)) = Nat.ofDigits 10 L := by
  rw [charsVal, List.map_map, List.map_reverse, List.reverse_reverse]
  have hmap : L.map (digitVal ∘ fun d => Char.ofNat (48 + d)) = L.map id :=
    List.map_congr_left fun d hd => digitVal_ofNat (hL d hd)
  rw [hmap, List.map_id]

lemma natToChars_spec (n : ℕ) :
    charsVal (natToChars n) = n ∧ natToChars n ≠ [] ∧
      ∀ c ∈ natToChars n, c.isDigit = true := by
  rw [natToChars]
  by_cases hn : n = 0
  · subst hn
    refine ⟨by decide, by decide, by decide⟩
  · rw [if_neg hn, decDigitsRev_eq_digits n n le_rfl]
    refine ⟨charsVal_digitChars _ (fun d hd => Nat.digits_lt_base (by norm_num) hd) |>.trans
      (Nat.ofDigits_digits 10 n), ?_, ?_⟩
    · simp only [ne_eq, List.map_eq_nil_iff, List.reverse_eq_nil_iff]
      exact Nat.digits_ne_nil_iff_ne_zero.2 hn
    · intro c hc
      obtain ⟨d, hd, rfl⟩ := List.mem_map.1 hc
      exact isDigit_ofNat (Nat.digits_lt_base (by norm_num) (List.mem_reverse.1 hd))

lemma ofDigits_replicate_zero (k : ℕ) : Nat.ofDigits 10 (List.replicate k 0) = 0 := by
  induction k with
  | zero => rfl
  | succ k ih =>
    simp [List.replicate_succ, Nat.ofDigits_cons, ih]

lemma fracChars_spec (n e : ℕ) (h : n < 10 ^ e) :
    charsVal (fracChars n e) = n ∧ (fracChars n e).length = e ∧
      ∀ c ∈ fracChars n e, c.isDigit = true := by
  rw [fracChars, decDigitsRev_eq_digits n n le_rfl]
  set ds := (Nat.digits 10 n).reverse.map fun d => Char.ofNat (48 + d) with hds
  have hlen : ds.length ≤ e := by
    rw [hds, List.length_map, List.length_reverse]
    by_cases hn : n = 0
    · subst hn
      simp
    · rw [Nat.digits_len 10 n (by norm_num) hn]
      have h10 : Nat.log 10 n < e := by
        by_contra hcon
        rw [not_lt] at hcon
        have := (Nat.pow_le_iff_le_log (by norm_num) hn).2 hcon
        omega
      omega
  refine ⟨?_, ?_, ?_⟩
  · rw [charsVal, List.map_append, List.reverse_append]
    have hrep : (List.replicate (e - ds.length) '0').map digitVal =
        List.replicate (e - ds.length) 0 := by
      rw [List.map_replicate]
      rfl
    rw [hrep, List.reverse_replicate, Nat.ofDigits_append, ofDigits_replicate_zero]
    have : Nat.ofDigits 10 ((ds.map digitVal).reverse) = n := by
      have := charsVal_digitChars (Nat.digits 10 n)
        (fun d hd => Nat.digits_lt_base (by norm_num) hd)
      rw [charsVal] at this
      rw [← hds] at this
      exact this.trans (Nat.ofDigits_digits 10 n)
    rw [this]
    norm_num
  · rw [List.length_append, List.length_replicate]
    omega
  · intro c hc
    rcases List.mem_append.1 hc with hc | hc
    · rw [List.eq_of_mem_replicate hc]
      decide
    · obtain ⟨d, hd, rfl⟩ := List.mem_map.1 hc
      exact isDigit_ofNat (Nat.digits_lt_base (by norm_num) (List.mem_reverse.1 hd))

lemma takeDigits_append (l1 l2 : List Char) (h1 : ∀ c ∈ l1, c.isDigit = true)
    (h2 : ∀ c, l2.head? = some c → c.isDigit = false) :
    takeDigits (l1 ++ l2) = (l1, l2) := by
  induction l1 with
  | nil =>
    cases l2 with
    | nil => rfl
    | cons c cs =>
      rw [List.nil_append, takeDigits, if_neg (by rw [h2 c rfl]; exact Bool.false_ne_true)]
  | cons c cs ih =>
    rw [List.cons_append, takeDigits, if_pos (h1 c (List.mem_cons_self c cs)),
      ih fun x hx => h1 x (List.mem_cons_of_mem c hx)]

lemma takeDigits_all (l : List Char) (h : ∀ c ∈ l, c.isDigit = true) :
    takeDigits l = (l, []) := by
  have := takeDigits_append l [] h (by intro c hc; cases hc)
  rwa [List.append_nil] at this

/-- Any divisor of a power of ten divides `10 ^ log₂ d` — the exponent the
printer uses. -/
lemma dvd_ten_pow_log {d : ℕ} (hd : d ≠ 0) (h : ∃ k, d ∣ 10 ^ k) :
    d ∣ 10 ^ Nat.log 2 d := by
  obtain ⟨k, hk⟩ := h
  have h10 : (10 : ℕ) ^ k = 2 ^ k * 5 ^ k := by
    rw [← Nat.mul_pow]
  rw [h10] at hk
  obtain ⟨y, z, hy, hz, hyz⟩ := Nat.dvd_mul.1 hk
  obtain ⟨i, _, rfl⟩ := (Nat.dvd_prime_pow Nat.prime_two).1 hy
  obtain ⟨j, _, rfl⟩ := (Nat.dvd_prime_pow Nat.prime_five).1 hz
  subst hyz
  have hi : i ≤ Nat.log 2 (2 ^ i * 5 ^ j) := by
    rw [← Nat.pow_le_iff_le_log (by norm_num) hd]
    exact Nat.le_of_dvd (Nat.pos_of_ne_zero hd) (Dvd.intro _ rfl)
  have hj5 : j ≤ Nat.log 5 (2 ^ i * 5 ^ j) := by
    rw [← Nat.pow_le_iff_le_log (by norm_num) hd]
    exact Nat.le_of_dvd (Nat.pos_of_ne_zero hd) (Dvd.intro_left _ rfl)
  have hj : j ≤ Nat.log 2 (2 ^ i * 5 ^ j) :=
    le_trans hj5 (Nat.log_anti_left (c := 2) (by norm_num) (by norm_num))
  calc 2 ^ i * 5 ^ j ∣ 2 ^ Nat.log 2 (2 ^ i * 5 ^ j) * 5 ^ Nat.log 2 (2 ^ i * 5 ^ j) :=
        mul_dvd_mul (pow_dvd_pow 2 hi) (pow_dvd_pow 5 hj)
    _ = 10 ^ Nat.log 2 (2 ^ i * 5 ^ j) := by rw [← Nat.mul_pow]

lemma isDecQ_den_dvd {q : ℚ} (hq : IsDecQ q) : (q.den : ℕ) ∣ 10 ^ Nat.log 2 q.den := by
  obtain ⟨z, k, hzk⟩ := hq
  refine dvd_ten_pow_log q.den_nz ⟨k, ?_⟩
  have hdiv : q = (z : ℚ) / ((10 ^ k : ℤ) : ℚ) := by
    rw [hzk]
    norm_num
  rw [← Rat.divInt_eq_div] at hdiv
  have := Rat.den_dvd z (10 ^ k : ℤ)
  rw [← hdiv] at this
  have hnat := Int.natCast_dvd_natCast.1 (by
    have h1 : ((q.den : ℤ)) ∣ ((10 ^ k : ℕ) : ℤ) := by
      push_cast
      exact_mod_cast this
    exact_mod_cast h1)
  exact hnat

lemma pyFloatAux_digit_shape (I F : List Char) (hI : ∀ c ∈ I, c.isDigit = true)
    (hF : ∀ c ∈ F, c.isDigit = true) (hInil : I ≠ []) (neg : Bool) :
    pyFloatAux ((if neg then ['-'] else []) ++ I ++ '.' :: F) =
      some ((if neg then (-1 : ℚ) else 1) *
        ((charsVal I : ℚ) + (charsVal F : ℚ) / 10 ^ F.length)) := by
  obtain ⟨c0, I', rfl⟩ := List.exists_cons_of_ne_nil hInil
  have hc0 : c0.isDigit = true := hI c0 (List.mem_cons_self _ _)
  obtain ⟨hm, hp, _, _, _, _⟩ := isDigit_facts hc0
  have htake1 : takeDigits ((c0 :: I') ++ '.' :: F) = (c0 :: I', '.' :: F) :=
    takeDigits_append _ _ hI (by intro c hc; cases hc; decide)
  have htakeF : takeDigits F = (F, []) := takeDigits_all F hF
  cases neg with
  | true =>
    show pyFloatAux ('-' :: ((c0 :: I') ++ '.' :: F)) = _
    rw [pyFloatAux]
    simp only [List.head?_cons, Option.some.injEq, if_pos rfl, htake1,
      List.tail_cons, eq_self_iff_true, true_or, if_true, htakeF]
    rw [if_neg (by simp)]
  | false =>
    show pyFloatAux ((c0 :: I') ++ '.' :: F) = _
    rw [pyFloatAux, List.cons_append]
    simp only [List.head?_cons, Option.some.injEq,
      if_neg hm, if_neg (show ¬ (c0 = '-' ∨ c0 = '+') from fun h => h.elim hm hp)]
    rw [← List.cons_append, htake1]
    simp only [List.head?_cons, Option.some.injEq, eq_self_iff_true, if_true,
      List.tail_cons, htakeF]
    rw [if_neg (by simp)]
    norm_num

/-- Printer/parser round trip: every finite-decimal rational printed by the
model of `str(float)` re-parses to exactly itself under the model of
`float(str)`. -/
theorem pyFloat?_printDec {q : ℚ} (hq : IsDecQ q) : pyFloat? (printDec q) = some q := by
  have hdvd : (q.den : ℕ) ∣ 10 ^ Nat.log 2 q.den := isDecQ_den_dvd hq
  set e := Nat.log 2 q.den with he
  set m := q.num.natAbs * 10 ^ e / q.den with hmdef
  have hmul : m * q.den = q.num.natAbs * 10 ^ e :=
    Nat.div_mul_cancel (hdvd.mul_left _)
  set a := m / 10 ^ e with hadef
  set b := m % 10 ^ e with hbdef
  have hbm : 10 ^ e * a + b = m := Nat.div_add_mod m (10 ^ e)
  have hblt : b < 10 ^ e := Nat.mod_lt _ (by positivity)
  have hIspec := natToChars_spec a
  set F : List Char := if e = 0 then ['0'] else fracChars b e with hFdef
  have hFdig : ∀ c ∈ F, c.isDigit = true := by
    rw [hFdef]
    by_cases h0 : e = 0
    · rw [if_pos h0]
      decide
    · rw [if_neg h0]
      exact (fracChars_spec b e hblt).2.2
  have hFval : (charsVal F : ℚ) / 10 ^ F.length = (b : ℚ) / 10 ^ e := by
    rw [hFdef]
    by_cases h0 : e = 0
    · rw [if_pos h0]
      have hb0 : b = 0 := by
        rw [hbdef, h0, pow_zero]
        exact Nat.mod_one m
      rw [hb0, h0]
      norm_num
      decide
    · rw [if_neg h0]
      rw [(fracChars_spec b e hblt).1, (fracChars_spec b e hblt).2.1]
  have hval : (charsVal (natToChars a) : ℚ) + (charsVal F : ℚ) / 10 ^ F.length =
      ((q.num.natAbs : ℚ)) / (q.den : ℚ) := by
    rw [hIspec.1, hFval]
    have hcast : ((10 ^ e * a + b : ℕ) : ℚ) = (m : ℚ) := by
      exact_mod_cast congrArg (fun n : ℕ => (n : ℚ)) hbm
    push_cast at hcast
    have h10 : ((10 : ℚ)) ^ e ≠ 0 := by positivity
    have hden : ((q.den : ℚ)) ≠ 0 := by
      exact_mod_cast q.den_nz
    have hmcast : ((m * q.den : ℕ) : ℚ) = ((q.num.natAbs * 10 ^ e : ℕ) : ℚ) := by
      rw [hmul]
    push_cast at hmcast
    have hstep : (a : ℚ) + (b : ℚ) / 10 ^ e = ((m : ℚ)) / 10 ^ e := by
      rw [eq_div_iff h10, add_mul, div_mul_cancel₀ _ h10]
      linear_combination hcast
    rw [hstep, div_eq_div_iff h10 hden]
    linear_combination hmcast
  have hlist : (printDec q).toList =
      (if q < 0 then ['-'] else []) ++ natToChars a ++ '.' :: F := rfl
  rw [pyFloat?, hlist]
  have hq' : ((q.num : ℚ)) / (q.den : ℚ) = q := Rat.num_div_den q
  by_cases hneg : q < 0
  · rw [if_pos hneg]
    have hshape := pyFloatAux_digit_shape (natToChars a) F hIspec.2.2 hFdig hIspec.2.1 true
    have hnum : q.num ≤ 0 := by
      have hn : ¬ (0 : ℚ) ≤ q := not_le.2 hneg
      rw [← Rat.num_nonneg] at hn
      omega
    have habs : ((q.num.natAbs : ℚ)) = -((q.num : ℚ)) := by
      rw [Int.cast_natAbs]
      exact_mod_cast congrArg (fun z : ℤ => (z : ℚ)) (abs_of_nonpos hnum)
    rw [habs, neg_div] at hval
    have hv : ((if (true : Bool) then (-1 : ℚ) else 1)) *
        ((charsVal (natToChars a) : ℚ) + (charsVal F : ℚ) / 10 ^ F.length) = q := by
      rw [if_pos rfl]
      linarith [hval, hq']
    exact hshape.trans (congrArg some hv)
  · rw [if_neg hneg]
    have hshape := pyFloatAux_digit_shape (natToChars a) F hIspec.2.2 hFdig hIspec.2.1 false
    have hnum : 0 ≤ q.num := Rat.num_nonneg.2 (not_lt.1 hneg)
    have habs : ((q.num.natAbs : ℚ)) = ((q.num : ℚ)) := by
      rw [Int.cast_natAbs]
      exact_mod_cast congrArg (fun z : ℤ => (z : ℚ)) (abs_of_nonneg hnum)
    rw [habs] at hval
    have hv : ((if (false : Bool) then (-1 : ℚ) else 1)) *
        ((charsVal (natToChars a) : ℚ) + (charsVal F : ℚ) / 10 ^ F.length) = q := by
      rw [if_neg Bool.false_ne_true]
      linarith [hval, hq']
    exact hshape.trans (congrArg some hv)

/-! ## The serialize/re-parse round trip -/

/-- The only lossy step of the round trip: `None` cells are written as `""`
and re-parsed as the empty string. -/
def blankCell : Cell → Cell
  | .num q => .num q
  | .str s => .str s
  | .absent => .str ""

/-- Characters that neither force CSV quoting nor break a record line. -/
def cleanChar (c : Char) : Bool :=
  !(c = ';' || c = '"' || c = '\n' || c = '\r')

/-- All characters of a string are clean. -/
abbrev cleanStr (s : String) : Prop := ∀ c ∈ s.toList, cleanChar c = true

lemma string_mk_toList (s : String) : (⟨s.toList⟩ : String) = s := rfl

lemma csvQuoteField_clean {s : String} (h : cleanStr s) : csvQuoteField s = s := by
  rw [csvQuoteField, if_neg]
  intro hc
  obtain ⟨c, hcs, hbad⟩ := List.any_eq_true.1 hc
  have hcl := h c hcs
  rw [cleanChar, hbad] at hcl
  simp at hcl

lemma dinsert_fresh {r : Row} {k : String} (v : Cell) (h : ∀ kv ∈ r, kv.1 ≠ k) :
    dinsert r k v = r ++ [(k, v)] := by
  rw [dinsert, if_neg]
  intro hc
  obtain ⟨kv, hkv, hbeq⟩ := List.any_eq_true.1 hc
  exact h kv hkv (by simpa using hbeq)

lemma foldl_dinsert_map {α : Type} (g : α → String) (f : α → Cell) :
    ∀ (l : List α) (r : Row), ((r.map Prod.fst ++ l.map g).Nodup) →
      l.foldl (fun acc a => dinsert acc (g a) (f a)) r =
        r ++ l.map fun a => (g a, f a) := by
  intro l
  induction l with
  | nil =>
    intro r _
    simp
  | cons a t ih =>
    intro r hnd
    rw [List.map_cons] at hnd
    have hdisj := (List.nodup_append.1 hnd).2.2
    have hfresh : ∀ kv ∈ r, kv.1 ≠ g a := by
      intro kv hkv hk
      exact hdisj (List.mem_map_of_mem Prod.fst hkv)
        (by rw [hk]; exact List.mem_cons_self _ _)
    rw [List.foldl_cons, dinsert_fresh (f a) hfresh]
    have hnd2 : (((r ++ [(g a, f a)]).map Prod.fst) ++ t.map g).Nodup := by
      rw [List.map_append, List.append_assoc]
      simpa using hnd
    rw [ih (r ++ [(g a, f a)]) hnd2]
    simp

lemma dget_cons_self (k : String) (v : Cell) (r : Row) :
    dget ((k, v) :: r) k = some v := by
  rw [dget, List.find?_cons_of_pos _ (by simp)]
  rfl

lemma dget_cons_ne {k k' : String} (h : k ≠ k') (v : Cell) (r : Row) :
    dget ((k, v) :: r) k' = dget r k' := by
  rw [dget, List.find?_cons_of_neg _ (by simpa using h), dget]

lemma dget_map_of_nodup {α : Type} (g : α → String) (f : α → Cell) :
    ∀ (l : List α) (b : α), ((l.map g).Nodup) → b ∈ l →
      dget (l.map fun a => (g a, f a)) (g b) = some (f b) := by
  intro l
  induction l with
  | nil =>
    intro b _ hb
    cases hb
  | cons a t ih =>
    intro b hnd hb
    rw [List.map_cons]
    by_cases hab : g a = g b
    · have hba : b = a := by
        rcases List.mem_cons.1 hb with h | h
        · exact h
        · exfalso
          exact (List.nodup_cons.1 (by simpa using hnd)).1
            (hab ▸ List.mem_map_of_mem g h)
      subst hba
      exact dget_cons_self (g b) (f b) _
    · have hbt : b ∈ t := by
        rcases List.mem_cons.1 hb with h | h
        · exact absurd (congrArg g h.symm) hab
        · exact h
      rw [dget_cons_ne hab]
      exact ih b (List.nodup_cons.1 (by simpa using hnd)).2 hbt

lemma dget_append_left {r1 r2 : Row} {k : String} {v : Cell}
    (h : dget r1 k = some v) : dget (r1 ++ r2) k = some v := by
  rw [dget, List.find?_append]
  rw [dget] at h
  obtain ⟨kv, hkv, hv⟩ := Option.map_eq_some'.1 h
  rw [hkv]
  simpa using hv

lemma dget_append_right {r1 r2 : Row} {k : String}
    (h : dget r1 k = none) : dget (r1 ++ r2) k = dget r2 k := by
  rw [dget, List.find?_append]
  rw [dget, Option.map_eq_none'] at h
  rw [h]
  rfl

lemma mem_of_mem_intersperse {α : Type} (s : α) :
    ∀ (l : List α) (x : α), x ∈ l → x ∈ List.intersperse s l := by
  intro l
  induction l with
  | nil =>
    intro x hx
    cases hx
  | cons a t ih =>
    intro x hx
    cases t with
    | nil => simpa using hx
    | cons b u =>
      rw [List.intersperse_cons_cons]
      rcases List.mem_cons.1 hx with h | h
      · exact h ▸ List.mem_cons_self _ _
      · exact List.mem_cons_of_mem _ (List.mem_cons_of_mem _ (ih x h))

lemma splitOn_chars {xs p : List Char} {sep : Char} (hp : p ∈ xs.splitOn sep) :
    ∀ c ∈ p, c ∈ xs := by
  intro c hc
  have hx : c ∈ [sep].intercalate (xs.splitOn sep) := by
    rw [List.intercalate]
    exact List.mem_flatten.2 ⟨p, mem_of_mem_intersperse [sep] (xs.splitOn sep) p hp, hc⟩
  rwa [List.intercalate_splitOn] at hx

lemma pySplitlines_chars {text line : String} (h : line ∈ pySplitlines text) :
    ∀ c ∈ line.toList, c ∈ text.toList := by
  intro c hc
  rw [pySplitlines] at h
  have hparts : line ∈ (text.toList.splitOn '\n').map fun l => (⟨l⟩ : String) := by
    split at h
    · exact (List.dropLast_sublist _).subset h
    · exact h
  obtain ⟨l, hl, rfl⟩ := List.mem_map.1 hparts
  exact splitOn_chars hl c hc

lemma pyStrip_chars {s : String} : ∀ c ∈ (pyStrip s).toList, c ∈ s.toList := by
  intro c hc
  rw [pyStrip] at hc
  have hc1 : c ∈ ((s.toList.dropWhile fun c => isWs c).reverse.dropWhile
      fun c => isWs c).reverse := hc
  rw [List.mem_reverse] at hc1
  have hc2 := (List.dropWhile_suffix _).sublist.subset hc1
  rw [List.mem_reverse] at hc2
  exact (List.dropWhile_suffix _).sublist.subset hc2

lemma wsSplit_chars : ∀ (l : List Char), ∀ t ∈ wsSplit l,
    t ≠ [] ∧ ∀ c ∈ t, isWs c = false ∧ c ∈ l := by
  intro l
  induction l using wsSplit.induct with
  | case1 =>
    intro t ht
    rw [wsSplit] at ht
    cases ht
  | case2 c rest hws ih =>
    intro t ht
    rw [wsSplit, if_pos hws] at ht
    obtain ⟨hne, hall⟩ := ih t ht
    exact ⟨hne, fun x hx => ⟨(hall x hx).1, List.mem_cons_of_mem _ (hall x hx).2⟩⟩
  | case3 c rest hws ih =>
    intro t ht
    rw [wsSplit, if_neg hws] at ht
    rcases List.mem_cons.1 ht with h | h
    · subst h
      refine ⟨List.cons_ne_nil _ _, ?_⟩
      intro x hx
      rcases List.mem_cons.1 hx with h1 | h1
      · subst h1
        exact ⟨by simpa using hws, List.mem_cons_self _ _⟩
      · have h2 := List.mem_takeWhile_imp h1
        refine ⟨by simpa using h2, List.mem_cons_of_mem _ ((List.takeWhile_prefix _).subset h1)⟩
    · obtain ⟨hne, hall⟩ := ih t h
      refine ⟨hne, fun x hx => ⟨(hall x hx).1, ?_⟩⟩
      exact List.mem_cons_of_mem _ ((List.dropWhile_suffix _).sublist.subset (hall x hx).2)

lemma cleanChar_of_digit {c : Char} (h : c.isDigit = true) : cleanChar c = true := by
  have hn : ∀ x : Char, x.isDigit = false → c ≠ x := by
    intro x hx hcx
    rw [hcx, hx] at h
    cases h
  have h1 := hn ';' (by decide)
  have h2 := hn '"' (by decide)
  have h3 := hn '\n' (by decide)
  have h4 := hn '\r' (by decide)
  simp [cleanChar, h1, h2, h3, h4]

lemma printDec_toList (q : ℚ) : (printDec q).toList =
    (if q < 0 then ['-'] else []) ++
      natToChars (q.num.natAbs * 10 ^ Nat.log 2 q.den / q.den / 10 ^ Nat.log 2 q.den) ++
      '.' :: (if Nat.log 2 q.den = 0 then ['0']
        else fracChars (q.num.natAbs * 10 ^ Nat.log 2 q.den / q.den % 10 ^ Nat.log 2 q.den)
          (Nat.log 2 q.den)) := rfl

lemma printDec_chars (q : ℚ) : ∀ c ∈ (printDec q).toList,
    c.isDigit = true ∨ c = '-' ∨ c = '.' := by
  intro c hc
  rw [printDec_toList] at hc
  rcases List.mem_append.1 hc with h | h
  · rcases List.mem_append.1 h with h1 | h1
    · by_cases hq : q < 0
      · rw [if_pos hq] at h1
        right; left
        simpa using h1
      · rw [if_neg hq] at h1
        cases h1
    · left
      exact (natToChars_spec _).2.2 c h1
  · rcases List.mem_cons.1 h with h1 | h1
    · right; right
      exact h1
    · by_cases he : Nat.log 2 q.den = 0
      · rw [if_pos he] at h1
        left
        rw [List.mem_singleton.1 h1]
        decide
      · rw [if_neg he] at h1
        left
        exact (fracChars_spec _ _ (Nat.mod_lt _ (by positivity))).2.2 c h1

lemma printDec_ne_empty (q : ℚ) : printDec q ≠ "" := by
  intro h
  have hd := congrArg String.toList h
  rw [printDec_toList] at hd
  simp at hd

lemma printDec_cleanStr (q : ℚ) : cleanStr (printDec q) := by
  intro c hc
  rcases printDec_chars q c hc with h | h | h
  · exact cleanChar_of_digit h
  · rw [h]
    decide
  · rw [h]
    decide

lemma isDecQ_intCast (z : ℤ) : IsDecQ (z : ℚ) := ⟨z, 0, by norm_num⟩

lemma isDecQ_natCast (n : ℕ) : IsDecQ (n : ℚ) := ⟨n, 0, by norm_num⟩

lemma isDecQ_divPow {q : ℚ} (h : IsDecQ q) (e : ℕ) : IsDecQ (q / 10 ^ e) := by
  obtain ⟨z, k, rfl⟩ := h
  exact ⟨z, k + e, by rw [pow_add, div_div]⟩

lemma isDecQ_mul {a b : ℚ} (ha : IsDecQ a) (hb : IsDecQ b) : IsDecQ (a * b) := by
  obtain ⟨z, k, rfl⟩ := ha
  obtain ⟨w, m, rfl⟩ := hb
  refine ⟨z * w, k + m, ?_⟩
  push_cast
  rw [pow_add]
  ring

lemma isDecQ_add {a b : ℚ} (ha : IsDecQ a) (hb : IsDecQ b) : IsDecQ (a + b) := by
  obtain ⟨z, k, rfl⟩ := ha
  obtain ⟨w, m, rfl⟩ := hb
  refine ⟨z * 10 ^ m + w * 10 ^ k, k + m, ?_⟩
  have h1 : ((10 : ℚ)) ^ k ≠ 0 := by positivity
  have h2 : ((10 : ℚ)) ^ m ≠ 0 := by positivity
  rw [div_add_div _ _ h1 h2, pow_add]
  push_cast
  ring

lemma isDecQ_pow10 (e : ℕ) : IsDecQ ((10 : ℚ) ^ e) :=
  ⟨10 ^ e, 0, by push_cast; norm_num⟩

lemma isDecQ_mulPow {q : ℚ} (h : IsDecQ q) (e : ℕ) : IsDecQ (q * 10 ^ e) :=
  isDecQ_mul h (isDecQ_pow10 e)

/-- Every rational that `float(str)` accepts is a finite decimal. -/
lemma pyFloatAux_isDecQ (cs : List Char) (q : ℚ) (h : pyFloatAux cs = some q) :
    IsDecQ q := by
  have hmant : ∀ (s : ℚ), (s = 1 ∨ s = -1) → ∀ (I F : ℕ) (k : ℕ),
      IsDecQ (s * ((I : ℚ) + (F : ℚ) / 10 ^ k)) := by
    intro s hs I F k
    refine isDecQ_mul ?_ (isDecQ_add (isDecQ_natCast I) (isDecQ_divPow (isDecQ_natCast F) k))
    rcases hs with h1 | h1
    · rw [h1]
      exact isDecQ_intCast 1
    · rw [h1]
      exact ⟨-1, 0, by norm_num⟩
  have hsgn : (if cs.head? = some '-' then (-1 : ℚ) else 1) = 1 ∨
      (if cs.head? = some '-' then (-1 : ℚ) else 1) = -1 := by
    by_cases hc : cs.head? = some '-'
    · right
      rw [if_pos hc]
    · left
      rw [if_neg hc]
  simp only [pyFloatAux] at h
  rcases h1 : takeDigits (if cs.head? = some '-' ∨ cs.head? = some '+' then cs.tail else cs)
    with ⟨ip, cs2⟩
  rw [h1] at h
  rcases h2 : (if cs2.head? = some '.' then takeDigits cs2.tail else ([], cs2)) with ⟨fp, cs3⟩
  rw [h2] at h
  simp only at h
  by_cases hb : (ip.isEmpty && fp.isEmpty) = true
  · rw [if_pos hb] at h
    cases h
  · rw [if_neg hb] at h
    by_cases h3 : cs3 = []
    · rw [if_pos h3, Option.some.injEq] at h
      subst h
      exact hmant _ hsgn _ _ _
    · rw [if_neg h3] at h
      by_cases h4 : cs3.head? = some 'e' ∨ cs3.head? = some 'E'
      · rw [if_pos h4] at h
        rcases h5 : takeDigits (if cs3.tail.head? = some '-' ∨ cs3.tail.head? = some '+'
            then cs3.tail.tail else cs3.tail) with ⟨ed, r2⟩
        rw [h5] at h
        simp only at h
        by_cases h6 : (ed.isEmpty || !r2.isEmpty) = true
        · rw [if_pos h6] at h
          cases h
        · rw [if_neg h6, Option.some.injEq] at h
          subst h
          split
          · exact isDecQ_divPow (hmant _ hsgn _ _ _) _
          · exact isDecQ_mulPow (hmant _ hsgn _ _ _) _
      · rw [if_neg h4] at h
        cases h

/-- The invariant of every cell the parser stores: numeric cells are finite
decimals; string cells do not re-parse as floats and contain only clean
characters. -/
def CellRT : Cell → Prop
  | .num q => IsDecQ q
  | .str s => pyFloat? s = none ∧ cleanStr s
  | .absent => True

lemma cellToField_clean {c : Cell} (h : CellRT c) : cleanStr (cellToField c) := by
  cases c with
  | num q => exact printDec_cleanStr q
  | str s => exact h.2
  | absent =>
    intro x hx
    cases hx

lemma fieldCell_cellToField {c : Cell} (h : CellRT c) :
    fieldCell (cellToField c) = blankCell c := by
  cases c with
  | num q =>
    rw [cellToField, fieldCell, if_neg (printDec_ne_empty q), pyFloat?_printDec h]
    rfl
  | str s =>
    by_cases hs : s = ""
    · subst hs
      rfl
    · rw [cellToField, fieldCell, if_neg hs, h.1]
      rfl
  | absent => rfl

lemma joinLines_toList : ∀ (L : List String),
    (joinLines L).toList = List.intercalate ['\n'] (L.map String.toList ++ [[]]) := by
  intro L
  induction L with
  | nil => rfl
  | cons a t ih =>
    rw [joinLines]
    have hstep : (a ++ "\n" ++ joinLines t).toList =
        a.toList ++ '\n' :: (joinLines t).toList := by
      simp [String.toList]
    rw [hstep, ih, List.map_cons, List.cons_append, List.intercalate, List.intercalate]
    cases ht : t.map String.toList ++ [[]] with
    | nil => exact absurd ht (by simp)
    | cons x xs =>
      rw [List.intersperse_cons_cons, List.flatten_cons, List.flatten_cons]
      simp

lemma pySplitlines_joinLines (L : List String) (hne : L ≠ [])
    (h : ∀ l ∈ L, '\n' ∉ l.toList) : pySplitlines (joinLines L) = L := by
  have hsplit : (joinLines L).toList.splitOn '\n' = L.map String.toList ++ [[]] := by
    rw [joinLines_toList]
    refine List.splitOn_intercalate _ '\n' ?_ (by simp)
    intro l hl
    rcases List.mem_append.1 hl with h1 | h1
    · obtain ⟨s, hs, rfl⟩ := List.mem_map.1 h1
      exact h s hs
    · rw [List.mem_singleton.1 h1]
      simp
  have hparts : ((joinLines L).toList.splitOn '\n').map (fun l => (⟨l⟩ : String)) =
      L ++ [""] := by
    rw [hsplit, List.map_append, List.map_map]
    congr 1
    exact (List.map_congr_left fun s _ => string_mk_toList s).trans L.map_id
  have hlast : (L ++ [""]).getLast? = some "" := List.getLast?_concat _
  simp only [pySplitlines]
  rw [hparts, hlast]
  simp only []
  rw [List.dropLast_concat]

lemma csvReadLineGo_consume : ∀ (l : List Char) (rest : List Char) (cur : List Char)
    (acc : List String), (∀ c ∈ l, cleanChar c = true) →
    csvReadLineGo (l ++ rest) false cur acc = csvReadLineGo rest false (cur ++ l) acc := by
  intro l
  induction l with
  | nil =>
    intro rest cur acc _
    simp
  | cons c t ih =>
    intro rest cur acc hcl
    have hc := hcl c (List.mem_cons_self _ _)
    have hsemi : c ≠ ';' := by
      intro hcc
      rw [hcc] at hc
      simp [cleanChar] at hc
    have hq : c ≠ '"' := by
      intro hcc
      rw [hcc] at hc
      simp [cleanChar] at hc
    rw [List.cons_append, csvReadLineGo, if_neg hsemi, if_neg hq,
      ih rest (cur ++ [c]) acc (fun x hx => hcl x (List.mem_cons_of_mem _ hx)),
      List.append_assoc]
    rfl

lemma csvReadLineGo_fields : ∀ (fs : List String) (f : String) (cur : List Char)
    (acc : List String), (∀ x ∈ f :: fs, cleanStr x) →
    csvReadLineGo ((joinSemi (f :: fs)).toList) false cur acc =
      acc ++ (⟨cur ++ f.toList⟩ : String) :: fs := by
  intro fs
  induction fs with
  | nil =>
    intro f cur acc hcl
    rw [joinSemi, ← List.append_nil f.toList,
      csvReadLineGo_consume f.toList [] cur acc (hcl f (by simp)), csvReadLineGo,
      List.append_nil]
  | cons g t ih =>
    intro f cur acc hcl
    rw [joinSemi]
    have hlist : (f ++ ";" ++ joinSemi (g :: t)).toList =
        f.toList ++ ';' :: (joinSemi (g :: t)).toList := by
      simp [String.toList]
    rw [hlist, csvReadLineGo_consume f.toList _ cur acc (hcl f (by simp)),
      csvReadLineGo, if_pos rfl,
      ih g [] (acc ++ [(⟨cur ++ f.toList⟩ : String)])
        (fun x hx => hcl x (List.mem_cons_of_mem _ hx))]
    · simp [string_mk_toList]
    all_goals simp

lemma csvReadLine_joinSemi (fs : List String) (hne : fs ≠ [])
    (hcl : ∀ x ∈ fs, cleanStr x) (hnonempty : joinSemi fs ≠ "") :
    csvReadLine (joinSemi fs) = fs := by
  cases fs with
  | nil => exact absurd rfl hne
  | cons f t =>
    rw [csvReadLine, if_neg hnonempty, csvReadLineGo_fields t f [] [] hcl]
    simp [string_mk_toList]

lemma joinSemi_ne_empty {f : String} (t : List String) (hf : f ≠ "") :
    joinSemi (f :: t) ≠ "" := by
  cases t with
  | nil =>
    rw [joinSemi]
    exact hf
  | cons g u =>
    rw [joinSemi]
    · intro h
      have hd := congrArg String.toList h
      simp [String.toList] at hd
    all_goals simp

lemma columnUnits_clean {b u : String} (h : columnUnits b = some u) :
    cleanStr u ∧ u ≠ "" := by
  unfold columnUnits at h
  split at h
  all_goals first
    | (rw [Option.some.injEq] at h; subst h; exact ⟨by decide, by decide⟩)
    | (cases h)

lemma labelOf_clean {b : String} (hb : cleanStr b) : cleanStr (labelOf b) := by
  rw [labelOf]
  cases hcb : columnUnits b with
  | none => exact hb
  | some u =>
    intro c hc
    have hd : c ∈ b.toList ++ ',' :: u.toList := by
      simpa [String.toList] using hc
    rcases List.mem_append.1 hd with h | h
    · exact hb c h
    · rcases List.mem_cons.1 h with h1 | h1
      · rw [h1]
        decide
      · exact (columnUnits_clean hcb).1 c h1

lemma labelOf_ne_empty {b : String} (hb : b ≠ "") : labelOf b ≠ "" := by
  rw [labelOf]
  cases hcb : columnUnits b with
  | none => exact hb
  | some u =>
    intro h
    have hd := congrArg String.toList h
    simp [String.toList] at hd

lemma string_toList_eq_nil {s : String} (h : s.toList = []) : s = "" := by
  cases s with
  | mk data =>
    have hd : data = [] := h
    subst hd
    rfl

lemma dropWhile_head_false {p : Char → Bool} :
    ∀ (l : List Char) (c : Char) (cs : List Char), l.dropWhile p = c :: cs → p c = false := by
  intro l
  induction l with
  | nil =>
    intro c cs h
    cases h
  | cons a t ih =>
    intro c cs h
    rw [List.dropWhile_cons] at h
    by_cases hpa : p a = true
    · rw [if_pos hpa] at h
      exact ih c cs h
    · rw [if_neg hpa] at h
      injection h with h1 h2
      subst h1
      cases hb : p a with
      | false => rfl
      | true => exact absurd hb hpa

lemma pyStrip_head {s : String} {c : Char} {cs : List Char}
    (h : (pyStrip s).toList = c :: cs) : isWs c = false := by
  rw [pyStrip] at h
  have h' : ((s.toList.dropWhile fun x => isWs x).reverse.dropWhile
      fun x => isWs x).reverse = c :: cs := h
  have hpre : ((s.toList.dropWhile fun x => isWs x).reverse.dropWhile
      fun x => isWs x).reverse <+: (s.toList.dropWhile fun x => isWs x) := by
    have h2 := List.reverse_prefix.2
      (List.dropWhile_suffix (l := (s.toList.dropWhile fun x => isWs x).reverse)
        fun x => isWs x)
    simpa using h2
  obtain ⟨t, ht⟩ := hpre
  rw [h'] at ht
  exact dropWhile_head_false s.toList c (cs ++ t) (by rw [← ht]; rfl)

lemma wsSplit_ne_nil {c : Char} {cs : List Char} (hc : isWs c = false) :
    wsSplit (c :: cs) ≠ [] := by
  rw [wsSplit, if_neg (by simp [hc])]
  exact List.cons_ne_nil _ _

lemma pySplitWs_stripped_ne_nil {line : String} (hne : pyStrip line ≠ "") :
    pySplitWs (pyStrip line) ≠ [] := by
  rw [pySplitWs]
  cases hl : (pyStrip line).toList with
  | nil => exact absurd (string_toList_eq_nil hl) hne
  | cons c cs =>
    simpa using wsSplit_ne_nil (pyStrip_head hl)

/-- A whitespace-split token of a stripped line of the input text: non-empty,
free of whitespace, and all its characters come from the text. -/
def TokOK (text : String) (s : String) : Prop :=
  s ≠ "" ∧ ∀ c ∈ s.toList, isWs c = false ∧ c ∈ text.toList

lemma tok_of_line {text line t : String} (hline : line ∈ pySplitlines text)
    (ht : t ∈ pySplitWs (pyStrip line)) : TokOK text t := by
  rw [pySplitWs] at ht
  obtain ⟨l, hl, rfl⟩ := List.mem_map.1 ht
  obtain ⟨hlne, hall⟩ := wsSplit_chars _ l hl
  constructor
  · intro h
    apply hlne
    have hd := congrArg String.toList h
    simpa using hd
  · intro c hc
    have h1 := hall c hc
    exact ⟨h1.1, pySplitlines_chars hline c (pyStrip_chars c h1.2)⟩

/-- Invariant of the header the scanner finds. -/
def ColsOK (text : String) (cols : List String) : Prop :=
  cols ≠ [] ∧ ∀ b ∈ cols, TokOK text b

/-- Invariant of every raw data row the scanner collects. -/
def RowOK (text : String) (cols : List String) (r : Row) : Prop :=
  ∃ parts : List String, cols.length ≤ parts.length ∧ (∀ p ∈ parts, TokOK text p) ∧
    is_number (parts.headD "") = true ∧ r = buildRow cols parts

lemma scanLines_spec (text : String) : ∀ (lines : List String) (hsn : Bool)
    (cols : List String) (rows : List Row),
    (∀ l ∈ lines, l ∈ pySplitlines text) →
    (hsn = false → cols = [] ∧ rows = []) →
    (hsn = true → ColsOK text cols) →
    (∀ r ∈ rows, RowOK text cols r) →
    (((scanLines lines hsn cols rows).1 = [] ∧ (scanLines lines hsn cols rows).2 = []) ∨
      (ColsOK text (scanLines lines hsn cols rows).1 ∧
        ∀ r ∈ (scanLines lines hsn cols rows).2,
          RowOK text (scanLines lines hsn cols rows).1 r)) := by
  intro lines
  induction lines with
  | nil =>
    intro hsn cols rows hmem h0 h1 h2
    rw [scanLines]
    cases hsn with
    | false =>
      obtain ⟨hc, hr⟩ := h0 rfl
      subst hc
      subst hr
      exact Or.inl ⟨rfl, rfl⟩
    | true => exact Or.inr ⟨h1 rfl, h2⟩
  | cons line rest ih =>
    intro hsn cols rows hmem h0 h1 h2
    have hmem' : ∀ l ∈ rest, l ∈ pySplitlines text :=
      fun l hl => hmem l (List.mem_cons_of_mem _ hl)
    simp only [scanLines]
    by_cases hstr : pyStrip line = ""
    · rw [if_pos hstr]
      cases hsn with
      | false =>
        simp only [Bool.false_eq_true, if_false]
        exact ih false cols rows hmem' h0 h1 h2
      | true =>
        simp only [if_true]
        exact Or.inr ⟨h1 rfl, h2⟩
    · rw [if_neg hstr]
      cases hsn with
      | false =>
        obtain ⟨hc, hr⟩ := h0 rfl
        subst hc
        subst hr
        by_cases hps : pyStartsWith (pyStrip line) "PRES" = true
        · rw [if_pos (by simp [hps])]
          refine ih true (pySplitWs (pyStrip line)) [] hmem' (by simp) ?_ (by simp)
          intro _
          refine ⟨pySplitWs_stripped_ne_nil hstr, ?_⟩
          intro b hb
          exact tok_of_line (hmem line (List.mem_cons_self _ _)) hb
        · rw [if_neg (by simp [hps]), if_neg (by simp)]
          exact ih false [] [] hmem' (fun _ => ⟨rfl, rfl⟩) (by simp [ColsOK]) (by simp)
      | true =>
        rw [if_neg (by simp), if_pos (by simp)]
        by_cases hlen : (pySplitWs (pyStrip line)).length < cols.length
        · rw [if_pos hlen]
          exact ih true cols rows hmem' (by simp) h1 h2
        · rw [if_neg hlen]
          by_cases hnum : is_number ((pySplitWs (pyStrip line)).head?.getD "") = true
          · rw [if_neg (by simp [hnum])]
            refine ih true cols (rows ++ [buildRow cols (pySplitWs (pyStrip line))]) hmem'
              (by simp) h1 ?_
            intro r hr
            rcases List.mem_append.1 hr with h | h
            · exact h2 r h
            · rw [List.mem_singleton.1 h]
              refine ⟨pySplitWs (pyStrip line), Nat.le_of_not_lt hlen, ?_,
                (by rw [List.headD_eq_head?_getD]; exact hnum), rfl⟩
              intro p hp
              exact tok_of_line (hmem line (List.mem_cons_self _ _)) hp
          · rw [if_pos (by simp [Bool.eq_false_iff.2 hnum])]
            exact ih true cols rows hmem' (by simp) h1 h2

lemma cleanChar_of {c : Char} (h1 : c ≠ ';') (h2 : c ≠ '"') (h3 : isWs c = false) :
    cleanChar c = true := by
  rw [isWs] at h3
  simp only [Bool.or_eq_false_iff, decide_eq_false_iff_not] at h3
  simp [cleanChar, h1, h2, h3.1.2, h3.2]

lemma tokenCell_CellRT {text tok : String}
    (htext : ∀ c ∈ text.toList, c ≠ ';' ∧ c ≠ '"') (htok : TokOK text tok) :
    CellRT (tokenCell tok) := by
  rw [tokenCell]
  cases hpf : pyFloat? tok with
  | some q => exact pyFloatAux_isDecQ _ _ hpf
  | none =>
    refine ⟨hpf, ?_⟩
    intro c hc
    obtain ⟨hws, hmem⟩ := htok.2 c hc
    exact cleanChar_of (htext c hmem).1 (htext c hmem).2 hws

lemma isDecQ_decRound15 (q : ℚ) : IsDecQ (decRound15 q) := ⟨⌊q * 10 ^ 15⌋, 15, rfl⟩

lemma compute_absh_isDecQ {r t : Option ℚ} {q : ℚ} (h : compute_absh r t = some q) :
    IsDecQ q := by
  cases r with
  | none => simp [compute_absh] at h
  | some rh =>
    cases t with
    | none => simp [compute_absh] at h
    | some tc =>
      rw [show compute_absh (some rh) (some tc) = if tc + 243.5 = 0 ∨ 273.15 + tc = 0
          then none
          else some (decRound15 (6.112 * pyexp (17.67 * tc / (tc + 243.5)) * rh * 2.1674 /
            (273.15 + tc))) from rfl] at h
      by_cases hg : tc + 243.5 = 0 ∨ 273.15 + tc = 0
      · rw [if_pos hg] at h
        cases h
      · rw [if_neg hg, Option.some.injEq] at h
        subst h
        exact isDecQ_decRound15 _

lemma dget_eq_none_of_not_mem {r : Row} {k : String} (h : ∀ kv ∈ r, kv.1 ≠ k) :
    dget r k = none := by
  rw [dget, Option.map_eq_none', List.find?_eq_none]
  intro kv hkv
  simpa using h kv hkv

lemma buildRow_eq_map {cols parts : List String} (hnd : cols.Nodup)
    (hlen : cols.length ≤ parts.length) :
    buildRow cols parts = (cols.zip parts).map fun kv => (kv.1, tokenCell kv.2) := by
  rw [buildRow]
  have h := foldl_dinsert_map (α := String × String) Prod.fst (fun kv => tokenCell kv.2)
    (cols.zip parts) [] (by
      simp only [List.map_nil, List.nil_append]
      rw [List.map_fst_zip _ _ hlen]
      exact hnd)
  simpa using h

lemma rowOK_dget {text : String} {cols : List String} {r : Row} {b : String}
    (hnd : cols.Nodup) (hrow : RowOK text cols r) (hb : b ∈ cols) :
    ∃ tok : String, TokOK text tok ∧ dget r b = some (tokenCell tok) := by
  obtain ⟨parts, hlen, htoks, hnum, rfl⟩ := hrow
  rw [buildRow_eq_map hnd hlen]
  have hbz : b ∈ (cols.zip parts).map Prod.fst := by
    rw [List.map_fst_zip _ _ hlen]
    exact hb
  obtain ⟨kv, hkv, hfst⟩ := List.mem_map.1 hbz
  subst hfst
  refine ⟨kv.2, htoks kv.2 (List.of_mem_zip hkv).2, ?_⟩
  exact dget_map_of_nodup Prod.fst (fun kv => tokenCell kv.2) (cols.zip parts) kv
    (by rw [List.map_fst_zip _ _ hlen]; exact hnd) hkv

lemma rowOK_head_num {text : String} {b0 : String} {ct : List String} {r : Row}
    (hnd : (b0 :: ct).Nodup) (hrow : RowOK text (b0 :: ct) r) :
    ∃ q : ℚ, dget r b0 = some (Cell.num q) := by
  obtain ⟨parts, hlen, htoks, hnum, rfl⟩ := hrow
  cases parts with
  | nil => simp at hlen
  | cons p0 pt =>
    rw [buildRow_eq_map hnd hlen]
    simp only [List.zip_cons_cons, List.map_cons]
    rw [dget_cons_self]
    have hn : is_number p0 = true := by simpa using hnum
    rw [is_number] at hn
    cases hpf : pyFloat? p0 with
    | none =>
      rw [hpf] at hn
      cases hn
    | some q =>
      refine ⟨q, ?_⟩
      rw [tokenCell, hpf]

lemma joinSemi_chars : ∀ (fs : List String) (c : Char), c ∈ (joinSemi fs).toList →
    c = ';' ∨ ∃ f ∈ fs, c ∈ f.toList := by
  intro fs
  induction fs with
  | nil =>
    intro c hc
    cases hc
  | cons f t ih =>
    intro c hc
    cases t with
    | nil =>
      rw [joinSemi] at hc
      exact Or.inr ⟨f, List.mem_singleton_self f, hc⟩
    | cons g u =>
      rw [joinSemi] at hc
      · have hc' : c ∈ f.toList ++ ';' :: (joinSemi (g :: u)).toList := by
          simpa [String.toList] using hc
        rcases List.mem_append.1 hc' with h | h
        · exact Or.inr ⟨f, List.mem_cons_self _ _, h⟩
        · rcases List.mem_cons.1 h with h1 | h1
          · exact Or.inl h1
          · rcases ih c h1 with h2 | ⟨x, hx, hcx⟩
            · exact Or.inl h2
            · exact Or.inr ⟨x, List.mem_cons_of_mem _ hx, hcx⟩
      all_goals simp

lemma relabelRow_eq_map {cols2 : List String} (row2 : Row)
    (hnd : (cols2.map labelOf).Nodup) :
    relabelRow cols2 row2 =
      cols2.map fun b => (labelOf b, (dget row2 b).getD .absent) := by
  rw [relabelRow]
  have h := foldl_dinsert_map labelOf (fun b => (dget row2 b).getD .absent) cols2 []
    (by simpa using hnd)
  simpa using h

lemma serialized_fields {cols2 : List String} (row2 : Row)
    (hnd : (cols2.map labelOf).Nodup)
    (hcell : ∀ b ∈ cols2, CellRT ((dget row2 b).getD .absent)) :
    ((cols2.map labelOf).map fun col =>
        csvQuoteField (cellToField ((dget (relabelRow cols2 row2) col).getD (.str "")))) =
      cols2.map fun b => cellToField ((dget row2 b).getD .absent) := by
  rw [List.map_map, relabelRow_eq_map row2 hnd]
  refine List.map_congr_left ?_
  intro b hb
  have hg := dget_map_of_nodup labelOf (fun b => (dget row2 b).getD .absent) cols2 b hnd hb
  simp only [Function.comp_apply]
  rw [hg, Option.getD_some]
  exact csvQuoteField_clean (cellToField_clean (hcell b hb))

lemma reparse_row {cols2 : List String} (row2 : Row)
    (hnd : (cols2.map labelOf).Nodup)
    (hcell : ∀ b ∈ cols2, CellRT ((dget row2 b).getD .absent)) :
    ((cols2.map labelOf).zip
        (cols2.map fun b => cellToField ((dget row2 b).getD .absent))).foldl
      (fun r kv => dinsert r kv.1 (fieldCell kv.2)) [] =
      (relabelRow cols2 row2).map fun kv => (kv.1, blankCell kv.2) := by
  rw [List.zip_map', relabelRow_eq_map row2 hnd]
  have h := foldl_dinsert_map (α := String × String) Prod.fst (fun kv => fieldCell kv.2)
    (cols2.map fun b => (labelOf b, cellToField ((dget row2 b).getD .absent))) []
    (by
      simp only [List.map_nil, List.nil_append, List.map_map]
      simpa [Function.comp] using hnd)
  rw [List.nil_append] at h
  rw [h, List.map_map, List.map_map]
  refine List.map_congr_left ?_
  intro b hb
  simp [fieldCell_cellToField (hcell b hb)]

lemma cleanChar_spec {c : Char} (h : cleanChar c = true) :
    c ≠ ';' ∧ c ≠ '"' ∧ c ≠ '\n' ∧ c ≠ '\r' := by
  rw [cleanChar, Bool.not_eq_true'] at h
  simp only [Bool.or_eq_false_iff, decide_eq_false_iff_not] at h
  exact ⟨h.1.1.1, h.1.1.2, h.1.2, h.2⟩

/-- The serialize/re-parse round trip at the level of the labeled table:
re-parsing the CSV written for `(cols2.map labelOf, rows2.map (relabelRow cols2))`
recovers the same columns and the same rows up to `None ↦ ""`. -/
lemma roundtrip_rows (cols2 : List String) (rows2 : List Row)
    (hnd : (cols2.map labelOf).Nodup)
    (hcols : ∀ b ∈ cols2, cleanStr b ∧ b ≠ "")
    (hcell : ∀ r ∈ rows2, ∀ b ∈ cols2, CellRT ((dget r b).getD .absent))
    (hne : cols2 ≠ [])
    (hfirst : ∀ r ∈ rows2, ∃ q : ℚ,
        (dget r (cols2.headD "")).getD .absent = Cell.num q) :
    parse_csv_payload (rows_to_csv (cols2.map labelOf) (rows2.map (relabelRow cols2))) =
      (cols2.map labelOf,
        (rows2.map (relabelRow cols2)).map fun r => r.map fun kv => (kv.1, blankCell kv.2)) := by
  obtain ⟨b0, ct, rfl⟩ : ∃ b0 ct, cols2 = b0 :: ct := by
    cases cols2 with
    | nil => exact absurd rfl hne
    | cons b0 ct => exact ⟨b0, ct, rfl⟩
  set cols2 := b0 :: ct with hcols2
  have hlabclean : ∀ x ∈ cols2.map labelOf, cleanStr x := by
    intro x hx
    obtain ⟨b, hb, rfl⟩ := List.mem_map.1 hx
    exact labelOf_clean (hcols b hb).1
  have hq : (cols2.map labelOf).map csvQuoteField = cols2.map labelOf :=
    (List.map_congr_left fun x hx => csvQuoteField_clean (hlabclean x hx)).trans
      (cols2.map labelOf).map_id
  have hfieldsclean : ∀ r ∈ rows2,
      ∀ x ∈ cols2.map fun b => cellToField ((dget r b).getD .absent), cleanStr x := by
    intro r hr x hx
    obtain ⟨b, hb, rfl⟩ := List.mem_map.1 hx
    exact cellToField_clean (hcell r hr b hb)
  have hbody : (rows2.map (relabelRow cols2)).map (fun row =>
      joinSemi ((cols2.map labelOf).map fun col =>
        csvQuoteField (cellToField ((dget row col).getD (.str ""))))) =
      rows2.map fun r => joinSemi (cols2.map fun b => cellToField ((dget r b).getD .absent)) := by
    rw [List.map_map]
    refine List.map_congr_left ?_
    intro r hr
    simp only [Function.comp_apply]
    exact congrArg joinSemi (serialized_fields r hnd (hcell r hr))
  have hcsv : rows_to_csv (cols2.map labelOf) (rows2.map (relabelRow cols2)) =
      joinLines (joinSemi (cols2.map labelOf) ::
        rows2.map fun r =>
          joinSemi (cols2.map fun b => cellToField ((dget r b).getD .absent))) := by
    simp only [rows_to_csv]
    rw [hq, hbody]
  have hlinesclean : ∀ l ∈ joinSemi (cols2.map labelOf) ::
      (rows2.map fun r =>
        joinSemi (cols2.map fun b => cellToField ((dget r b).getD .absent))),
      '\n' ∉ l.toList := by
    intro l hl hnl
    rcases List.mem_cons.1 hl with h | h
    · rcases joinSemi_chars _ '\n' (h ▸ hnl) with h1 | ⟨f, hf, hcf⟩
      · cases h1
      · exact (cleanChar_spec (hlabclean f hf '\n' hcf)).2.2.1 rfl
    · obtain ⟨r, hr, rfl⟩ := List.mem_map.1 h
      rcases joinSemi_chars _ '\n' hnl with h1 | ⟨f, hf, hcf⟩
      · cases h1
      · exact (cleanChar_spec (hfieldsclean r hr f hf '\n' hcf)).2.2.1 rfl
  have hsplit : pySplitlines (rows_to_csv (cols2.map labelOf)
      (rows2.map (relabelRow cols2))) =
      joinSemi (cols2.map labelOf) ::
        (rows2.map fun r =>
          joinSemi (cols2.map fun b => cellToField ((dget r b).getD .absent))) := by
    rw [hcsv]
    exact pySplitlines_joinLines _ (List.cons_ne_nil _ _) hlinesclean
  have hheadrec : csvReadLine (joinSemi (cols2.map labelOf)) = cols2.map labelOf := by
    refine csvReadLine_joinSemi _ (by simp [hcols2]) hlabclean ?_
    rw [hcols2, List.map_cons]
    exact joinSemi_ne_empty _ (labelOf_ne_empty (hcols b0 (List.mem_cons_self _ _)).2)
  have hbodyrec : ∀ r ∈ rows2,
      csvReadLine (joinSemi (cols2.map fun b => cellToField ((dget r b).getD .absent))) =
        cols2.map fun b => cellToField ((dget r b).getD .absent) := by
    intro r hr
    refine csvReadLine_joinSemi _ (by simp [hcols2]) (hfieldsclean r hr) ?_
    rw [hcols2, List.map_cons]
    refine joinSemi_ne_empty _ ?_
    obtain ⟨q, hq0⟩ := hfirst r hr
    have hb0 : (dget r b0).getD .absent = Cell.num q := hq0
    rw [hb0, cellToField]
    exact printDec_ne_empty q
  rw [parse_csv_payload, hsplit, List.map_cons, hheadrec, List.map_map]
  have hrecs : rows2.map (csvReadLine ∘ fun r =>
      joinSemi (cols2.map fun b => cellToField ((dget r b).getD .absent))) =
      rows2.map fun r => cols2.map fun b => cellToField ((dget r b).getD .absent) := by
    refine List.map_congr_left ?_
    intro r hr
    simp only [Function.comp_apply]
    exact hbodyrec r hr
  rw [hrecs]
  simp only [List.map_map, Prod.mk.injEq, true_and]
  refine List.map_congr_left ?_
  intro r hr
  simp only [Function.comp_apply]
  exact reparse_row r hnd (hcell r hr)

lemma rowOK_keys {text : String} {cols : List String} {r : Row}
    (hnd : cols.Nodup) (hrow : RowOK text cols r) : ∀ kv ∈ r, kv.1 ∈ cols := by
  obtain ⟨parts, hlen, htoks, hnum, rfl⟩ := hrow
  rw [buildRow_eq_map hnd hlen]
  intro kv hkv
  obtain ⟨ab, hab, rfl⟩ := List.mem_map.1 hkv
  rcases ab with ⟨a, b⟩
  exact (List.of_mem_zip hab).1

lemma tokOK_clean {text tok : String} (htext : ∀ c ∈ text.toList, c ≠ ';' ∧ c ≠ '"')
    (htok : TokOK text tok) : cleanStr tok ∧ tok ≠ "" := by
  refine ⟨?_, htok.1⟩
  intro c hc
  obtain ⟨hws, hmem⟩ := htok.2 c hc
  exact cleanChar_of (htext c hmem).1 (htext c hmem).2 hws

/-- The absolute-humidity cell appended to a raw row. -/
def abshCell (row : Row) : Cell :=
  match compute_absh (numOfCell (dget row "RELH")) (numOfCell (dget row "TEMP")) with
  | some q => .num q
  | none => .absent

lemma abshCell_CellRT (row : Row) : CellRT (abshCell row) := by
  rw [abshCell]
  cases hca : compute_absh (numOfCell (dget row "RELH")) (numOfCell (dget row "TEMP")) with
  | some q => exact compute_absh_isDecQ hca
  | none => trivial

lemma addAbsh_pos {cols : List String} {rows : List Row}
    (h : (cols.contains "RELH" && cols.contains "TEMP") = true) :
    addAbsh cols rows = (cols ++ ["ABSH"], rows.map fun row =>
      dinsert row "ABSH" (abshCell row)) := by
  rw [addAbsh, if_pos h]
  rfl

lemma addAbsh_neg {cols : List String} {rows : List Row}
    (h : ¬ (cols.contains "RELH" && cols.contains "TEMP") = true) :
    addAbsh cols rows = (cols, rows) := by
  rw [addAbsh, if_neg h]

lemma rowOK_cellRT {text : String} {cols : List String} {r : Row}
    (htext : ∀ c ∈ text.toList, c ≠ ';' ∧ c ≠ '"')
    (hnd : cols.Nodup) (hrow : RowOK text cols r) :
    ∀ b : String, CellRT ((dget r b).getD .absent) := by
  intro b
  cases hdg : dget r b with
  | none => trivial
  | some c =>
    rw [Option.getD_some]
    obtain ⟨parts, hlen, htoks, hnum, rfl⟩ := hrow
    rw [buildRow_eq_map hnd hlen, dget] at hdg
    obtain ⟨kv, hkv, hv⟩ := Option.map_eq_some'.1 hdg
    have hkvmem := List.mem_of_find?_eq_some hkv
    obtain ⟨ab, hab, rfl⟩ := List.mem_map.1 hkvmem
    rcases ab with ⟨a, p⟩
    rw [← hv]
    exact tokenCell_CellRT htext (htoks p (List.of_mem_zip hab).2)

lemma abshRow_cellRT {text : String} {cols : List String} {raw : Row}
    (htext : ∀ c ∈ text.toList, c ≠ ';' ∧ c ≠ '"')
    (hnd : cols.Nodup) (hrow : RowOK text cols raw)
    (hfresh : ∀ kv ∈ raw, kv.1 ≠ "ABSH") :
    ∀ b : String, CellRT ((dget (dinsert raw "ABSH" (abshCell raw)) b).getD .absent) := by
  intro b
  rw [dinsert_fresh _ hfresh]
  cases hdg : dget raw b with
  | some c =>
    rw [dget_append_left hdg]
    have h1 := rowOK_cellRT htext hnd hrow b
    rwa [hdg] at h1
  | none =>
    rw [dget_append_right hdg]
    by_cases hb : b = "ABSH"
    · subst hb
      rw [dget_cons_self, Option.getD_some]
      exact abshCell_CellRT raw
    · rw [dget_cons_ne (fun he => hb he.symm)]
      trivial

/-- Round-trip engine: for an input block whose characters avoid the CSV
delimiter and the quote character and whose labeled header columns are
pairwise distinct, re-parsing the serialized payload recovers the columns and
the rows up to the absent-to-empty-string collapse. -/
lemma parse_roundtrip_aux (text : String)
    (htext : ∀ c ∈ text.toList, c ≠ ';' ∧ c ≠ '"')
    (hnd : (parse_sounding text).columns.Nodup) :
    parse_csv_payload (parse_sounding text).csv =
      ((parse_sounding text).columns,
        (parse_sounding text).rows.map fun r => r.map fun kv => (kv.1, blankCell kv.2)) := by
  rcases hs : scanLines (pySplitlines text) false [] [] with ⟨colsRaw, rowsRaw⟩
  have hinv := scanLines_spec text (pySplitlines text) false [] [] (fun l hl => hl)
    (fun _ => ⟨rfl, rfl⟩) (fun h => absurd h (by simp)) (fun r hr => absurd hr (by simp))
  rw [hs] at hinv
  have hps : parse_sounding text = ⟨((addAbsh colsRaw rowsRaw).1).map labelOf,
      ((addAbsh colsRaw rowsRaw).2).map (relabelRow (addAbsh colsRaw rowsRaw).1),
      rows_to_csv (((addAbsh colsRaw rowsRaw).1).map labelOf)
        (((addAbsh colsRaw rowsRaw).2).map (relabelRow (addAbsh colsRaw rowsRaw).1))⟩ := by
    rw [parse_sounding, hs]
  have hcolsE : (parse_sounding text).columns = ((addAbsh colsRaw rowsRaw).1).map labelOf := by
    rw [hps]
  have hrowsE : (parse_sounding text).rows =
      ((addAbsh colsRaw rowsRaw).2).map (relabelRow (addAbsh colsRaw rowsRaw).1) := by
    rw [hps]
  have hcsvE : (parse_sounding text).csv =
      rows_to_csv (((addAbsh colsRaw rowsRaw).1).map labelOf)
        (((addAbsh colsRaw rowsRaw).2).map (relabelRow (addAbsh colsRaw rowsRaw).1)) := by
    rw [hps]
  rw [hcolsE, hrowsE, hcsvE]
  rw [hcolsE] at hnd
  rcases hinv with ⟨hc, hr⟩ | ⟨hcolsOK, hrowsOK⟩
  · have hc' : colsRaw = [] := hc
    have hr' : rowsRaw = [] := hr
    subst hc'
    subst hr'
    show parse_csv_payload (rows_to_csv [] []) = (([] : List String), ([] : List Row))
    have h2 : pySplitlines (joinLines [""]) = [""] := by
      refine pySplitlines_joinLines _ (by simp) ?_
      intro l hl
      rw [List.mem_singleton.1 hl]
      simp
    rw [show rows_to_csv [] [] = joinLines [""] from rfl, parse_csv_payload, h2]
    simp [show csvReadLine "" = [] from rfl]
  · have hColsOK : ColsOK text colsRaw := hcolsOK
    have hRowsOK : ∀ r ∈ rowsRaw, RowOK text colsRaw r := hrowsOK
    by_cases habsh : (colsRaw.contains "RELH" && colsRaw.contains "TEMP") = true
    · rw [addAbsh_pos habsh] at hnd ⊢
      have hndL : ((colsRaw ++ ["ABSH"]).map labelOf).Nodup := hnd
      have hndraw : colsRaw.Nodup := by
        have h1 : (colsRaw ++ ["ABSH"]).Nodup := List.Nodup.of_map _ hndL
        exact (List.nodup_append.1 h1).1
      have habshns : "ABSH" ∉ colsRaw := by
        intro hmem
        have h1 : (colsRaw.map labelOf ++ ["ABSH"].map labelOf).Nodup := by
          rw [← List.map_append]
          exact hndL
        exact (List.nodup_append.1 h1).2.2 (List.mem_map_of_mem labelOf hmem) (by simp)
      refine roundtrip_rows (colsRaw ++ ["ABSH"]) _ hndL ?_ ?_ (by simp) ?_
      · intro b hb
        rcases List.mem_append.1 hb with h | h
        · exact tokOK_clean htext (hColsOK.2 b h)
        · rw [List.mem_singleton.1 h]
          exact ⟨by decide, by decide⟩
      · intro r hr b hb
        obtain ⟨raw, hraw, rfl⟩ := List.mem_map.1 hr
        have hrowOK := hRowsOK raw hraw
        have hfresh : ∀ kv ∈ raw, kv.1 ≠ "ABSH" :=
          fun kv hkv he => habshns (he ▸ rowOK_keys hndraw hrowOK kv hkv)
        exact abshRow_cellRT htext hndraw hrowOK hfresh b
      · intro r hr
        obtain ⟨raw, hraw, rfl⟩ := List.mem_map.1 hr
        have hrowOK := hRowsOK raw hraw
        have hfresh : ∀ kv ∈ raw, kv.1 ≠ "ABSH" :=
          fun kv hkv he => habshns (he ▸ rowOK_keys hndraw hrowOK kv hkv)
        cases hcr : colsRaw with
        | nil => exact absurd hcr hColsOK.1
        | cons b0 ct =>
          subst hcr
          obtain ⟨q, hq⟩ := rowOK_head_num hndraw hrowOK
          refine ⟨q, ?_⟩
          rw [show ((b0 :: ct) ++ ["ABSH"]).headD "" = b0 from rfl,
            dinsert_fresh _ hfresh, dget_append_left hq, Option.getD_some]
    · rw [addAbsh_neg habsh] at hnd ⊢
      have hndL : (colsRaw.map labelOf).Nodup := hnd
      have hndraw : colsRaw.Nodup := List.Nodup.of_map _ hndL
      refine roundtrip_rows colsRaw _ hndL ?_ ?_ hColsOK.1 ?_
      · intro b hb
        exact tokOK_clean htext (hColsOK.2 b hb)
      · intro r hr b hb
        exact rowOK_cellRT htext hndraw (hRowsOK r hr) b
      · intro r hr
        cases hcr : colsRaw with
        | nil => exact absurd hcr hColsOK.1
        | cons b0 ct =>
          subst hcr
          obtain ⟨q, hq⟩ := rowOK_head_num hndraw (hRowsOK r hr)
          refine ⟨q, ?_⟩
          rw [show (b0 :: ct).headD "" = b0 from rfl, hq, Option.getD_some]

/-- C2: For an input block whose characters avoid the CSV delimiter `;` and
the quote character `"` and whose labeled header columns are pairwise
distinct, parsing the block, serializing the parsed payload to
semicolon-delimited text, and re-parsing that text yields the same columns in
order and, per row, the same typed value for every column — except that
absent (`None`) values are re-read as the empty string `""` rather than
staying absent.  The claimed absent-preserving round trip is refuted
separately. -/
theorem parse_csv_roundtrip (text : String)
    (htext : ∀ c ∈ text.toList, c ≠ ';' ∧ c ≠ '"')
    (hnd : (parse_sounding text).columns.Nodup) :
    parse_csv_payload (parse_sounding text).csv =
      ((parse_sounding text).columns,
        (parse_sounding text).rows.map fun r => r.map fun kv => (kv.1, blankCell kv.2)) :=
  parse_roundtrip_aux text htext hnd

set_option maxHeartbeats 4000000 in
/-- Counterexample to the verbatim round trip of C2: on a block whose TEMP
cell is not numeric the derived ABSH value is absent (`None`), and the
re-parsed payload holds the empty string for it instead of an absent value,
so re-parsing does not return the rows unchanged. -/
theorem parse_csv_roundtrip_refuted :
    parse_csv_payload (parse_sounding "PRES   TEMP   RELH\n1.0   xx   70.0\n").csv ≠
      ((parse_sounding "PRES   TEMP   RELH\n1.0   xx   70.0\n").columns,
       (parse_sounding "PRES   TEMP   RELH\n1.0   xx   70.0\n").rows) := by
  have h1 : (parse_sounding "PRES   TEMP   RELH\n1.0   xx   70.0\n").columns =
      ["PRES,hPa", "TEMP,C", "RELH,%", "ABSH,g/m3"] := by
    norm_num +decide [parse_sounding, scanLines, pySplitlines, pyStrip, pySplitWs, wsSplit,
      isWs, pyStartsWith, is_number, tokenCell, pyFloat?, pyFloatAux, takeDigits, charsVal,
      Nat.ofDigits, digitValC0, digitValC1, digitValC2, digitValC3, digitValC4,
      digitValC5, digitValC6, digitValC7, digitValC8, digitValC9, beq_eq_decide,
      buildRow, dinsert, dget, numOfCell, addAbsh, compute_absh, labelOf, columnUnits,
      relabelRow, List.zip, List.zipWith, List.foldl, List.find?, List.any]
  have h2 : (parse_sounding "PRES   TEMP   RELH\n1.0   xx   70.0\n").rows =
      [[("PRES,hPa", Cell.num 1), ("TEMP,C", Cell.str "xx"), ("RELH,%", Cell.num 70),
        ("ABSH,g/m3", Cell.absent)]] := by
    norm_num +decide [parse_sounding, scanLines, pySplitlines, pyStrip, pySplitWs, wsSplit,
      isWs, pyStartsWith, is_number, tokenCell, pyFloat?, pyFloatAux, takeDigits, charsVal,
      Nat.ofDigits, digitValC0, digitValC1, digitValC2, digitValC3, digitValC4,
      digitValC5, digitValC6, digitValC7, digitValC8, digitValC9, beq_eq_decide,
      buildRow, dinsert, dget, numOfCell, addAbsh, compute_absh, labelOf, columnUnits,
      relabelRow, List.zip, List.zipWith, List.foldl, List.find?, List.any]
  have haux := parse_roundtrip_aux "PRES   TEMP   RELH\n1.0   xx   70.0\n"
    (by decide) (by rw [h1]; decide)
  rw [haux, h2]
  simp [blankCell]

set_option maxHeartbeats 1000000 in
/-- The round-trip theorem applies to a concrete well-formed block: its
hypotheses hold and re-parsing the serialized payload gives back the parsed
table (up to the absent-to-empty-string collapse). -/
theorem parse_csv_roundtrip_witness :
    (∀ c ∈ ("PRES\n1.0\n" : String).toList, c ≠ ';' ∧ c ≠ '"') ∧
    (parse_sounding "PRES\n1.0\n").columns.Nodup ∧
    parse_csv_payload (parse_sounding "PRES\n1.0\n").csv =
      ((parse_sounding "PRES\n1.0\n").columns,
        (parse_sounding "PRES\n1.0\n").rows.map fun r =>
          r.map fun kv => (kv.1, blankCell kv.2)) := by
  have h1 : (parse_sounding "PRES\n1.0\n").columns = ["PRES,hPa"] := by
    norm_num +decide [parse_sounding, scanLines, pySplitlines, pyStrip, pySplitWs, wsSplit,
      isWs, pyStartsWith, is_number, tokenCell, pyFloat?, pyFloatAux, takeDigits, charsVal,
      Nat.ofDigits, digitValC0, digitValC1, digitValC2, digitValC3, digitValC4,
      digitValC5, digitValC6, digitValC7, digitValC8, digitValC9, beq_eq_decide,
      buildRow, dinsert, dget, numOfCell, addAbsh, compute_absh, labelOf, columnUnits,
      relabelRow, List.zip, List.zipWith, List.foldl, List.find?, List.any]
  have hnd : (parse_sounding "PRES\n1.0\n").columns.Nodup := by
    rw [h1]
    decide
  exact ⟨by decide, hnd, parse_csv_roundtrip "PRES\n1.0\n" (by decide) hnd⟩

end Uwyo
